import Mathlib

/-!
Verification of the core logic of a real-estate ledger application
(`app/money_utils.py`, `app/tasks_engine.py`, `app/matching.py`, and the
Task primitives of `app/storage.py`).

Modelling conventions, used throughout:

* Python `int` is `Int`.  Python `//` and `%` (floor division, modulus with
  the sign of the divisor) coincide with Lean's `/` and `%` on `Int`
  (Euclidean division) for the positive divisors used by the code.
* Python `float` values that flow through the scoring rules are modelled as
  `ℚ`; `int(x)` on a non-negative value is truncation (`ratTrunc`).
* `datetime` values are modelled as integer timestamps in seconds;
  `timedelta(hours=1)` is `3600`, `timedelta(hours=24)` is `86400`, and
  `strftime("%Y-%m-%d %H:%M")` (`_fmt_local`) is truncation to the minute.
* A Python `dict` built by repeated `d[k] = v` assignment is an association
  list maintained by `dictInsert` (replace in place, else append), exactly
  the insertion-order semantics of `dict`.
* Strings that the program only feeds to a *parser* and then discards are
  modelled by small inductive types describing the parse outcome
  (`DTText` for `_parse_dt` inputs, `RangeText` for `parse_range` inputs,
  `PyVal` for the `Any` inputs of `money_utils.to_int`): each constructor
  corresponds to one branch outcome of the source parser.
* The `unique_key` strings `f"AUTO_PROP_INFO:{pid}"` … are only ever
  compared for equality (dict keys, SQL unique index), and the rendering is
  injective, so they are modelled by the inductive `AutoKey`; `kind`
  strings likewise by `Kind` (`kindIsAuto` models `kind LIKE 'AUTO_%'`,
  which the five `AUTO_*` rule kinds match and `"MANUAL"`/`"AUTO"` do not).
-/

/-! ## String helpers

Structural (character-list based) versions of `strip`/`split`/`lower`,
used instead of `String.trim`/`String.splitOn`/`String.toLower` so that
every definition evaluates by kernel reduction on concrete inputs. -/

/-- Python `str.strip()`. -/
def pyStrip (s : String) : String :=
  String.mk
    (((s.toList.dropWhile Char.isWhitespace).reverse.dropWhile
      Char.isWhitespace).reverse)

/-- Accumulator for `pySplitComma`. -/
def splitCommaAux : List Char → List Char → List String
  | [], cur => [String.mk cur.reverse]
  | c :: rest, cur =>
      if c = ',' then String.mk cur.reverse :: splitCommaAux rest []
      else splitCommaAux rest (c :: cur)

/-- Python `s.split(",")`. -/
def pySplitComma (s : String) : List String :=
  splitCommaAux s.toList []

/-- Python `str.lower()`. -/
def pyLower (s : String) : String :=
  String.mk (s.toList.map Char.toLower)

/-! ## Generic association-list (Python dict) helpers -/

/-- `d[k] = v` on a Python dict: replace in place if the key is present,
otherwise append. -/
def dictInsert {K V : Type} [DecidableEq K] (k : K) (v : V) :
    List (K × V) → List (K × V)
  | [] => [(k, v)]
  | (k', v') :: rest =>
      if k' = k then (k, v) :: rest else (k', v') :: dictInsert k v rest

/-- Dict lookup. -/
def alookup {K V : Type} [DecidableEq K] (k : K) : List (K × V) → Option V
  | [] => none
  | (k', v') :: rest => if k' = k then some v' else alookup k rest

/-- Membership of a key in a list of keys (`key in desired_keys`). -/
def keyMem {K : Type} [DecidableEq K] (k : K) (ks : List K) : Bool :=
  ks.any (fun k' => decide (k' = k))

/-- `min` of a Python list (`None` when empty). -/
def listMin? : List Int → Option Int :=
  List.foldl (fun acc x => match acc with
    | none => some x
    | some m => some (min m x)) none

/-! ## Money conversions (`app/money_utils.py`) -/

/-- Outcome classification of a Python `Any` value passed to
`money_utils.to_int` (which does `int(float(str(text).strip()))`):
`vNone` is `None` (`float("None")` raises), `vInt`/`vNum` are values whose
string round-trips to a number, `vBlank` is a blank string (the explicit
`s == ""` branch), `vBad` is any other non-numeric value. -/
inductive PyVal where
  | vNone : PyVal
  | vInt (n : Int) : PyVal
  | vNum (q : ℚ) : PyVal
  | vBlank : PyVal
  | vBad : PyVal
deriving DecidableEq

/-- Python `int()` applied to a float: truncation toward zero. -/
def ratTrunc (q : ℚ) : Int :=
  if q < 0 then -⌊-q⌋ else ⌊q⌋

/-- `money_utils.to_int`. -/
def to_int (text : PyVal) (default : Int) : Int :=
  match text with
  | .vNone => default
  | .vInt n => n
  | .vNum q => ratTrunc q
  | .vBlank => default
  | .vBad => default

/-- `money_utils.ten_million_to_eok_che`: `n = max(0, to_int(n_10m, 0))`,
returns `(n // 10, n % 10)`. -/
def ten_million_to_eok_che (n_10m : PyVal) : Int × Int :=
  let n := max 0 (to_int n_10m 0)
  (n / 10, n % 10)

/-- `money_utils.eok_che_to_ten_million`. -/
def eok_che_to_ten_million (eok che : PyVal) : Int :=
  max 0 (to_int eok 0 * 10 + to_int che 0)

/-- `money_utils.ten_man_to_man`. -/
def ten_man_to_man (n_10man : PyVal) : Int :=
  max 0 (to_int n_10man 0 * 10)

/-- `money_utils.man_to_ten_man` (Python `//` on a value that is clamped by
`max 0`; floor and Euclidean division agree here, see header). -/
def man_to_ten_man (man : PyVal) : Int :=
  max 0 (to_int man 0 / 10)

/-! ## Datetime parsing (`tasks_engine._parse_dt`, `_fmt_local`) -/

/-- Outcome classification of the string fed to `_parse_dt`:
`blank` is the `if not s: return None` branch (empty/whitespace string),
`unparseable` is a non-blank string matching none of the accepted formats
(ISO-8601, `YYYY-MM-DD HH:MM`, `YYYY-MM-DD HH:MM:SS`), and `parsed t` is a
string parsing to the timestamp `t` (seconds). -/
inductive DTText where
  | blank : DTText
  | unparseable : DTText
  | parsed (t : Int) : DTText
deriving DecidableEq

/-- `tasks_engine._parse_dt`. -/
def parse_dt : DTText → Option Int
  | .blank => none
  | .unparseable => none
  | .parsed t => some t

/-- `tasks_engine._fmt_local`: `strftime("%Y-%m-%d %H:%M")` renders the
timestamp at minute precision, i.e. truncates to the minute. -/
def fmtLocal (t : Int) : Int :=
  t - t % 60

/-! ## Entity records (rows handed to the engine by `app/storage.py`) -/

/-- A Photo row; `property_id` is `None`/non-integer (skipped by the
evaluator) or an id. -/
structure PhotoRec where
  property_id : Option Int := none
deriving DecidableEq

/-- A Property row (the fields the core reads).  `area`/`pyeong` are
`none` when the column is `NULL`/blank/non-numeric. -/
structure PropRec where
  id : Int := 0
  tab : String := ""
  complex_name : String := ""
  address_detail : String := ""
  unit_type : String := ""
  floor : String := ""
  area : Option ℚ := none
  pyeong : Option ℚ := none
  status : String := ""
  hidden : Bool := false
  deleted : Bool := false
  deal_sale : Bool := false
  deal_jeonse : Bool := false
  deal_wolse : Bool := false
  price_sale_eok : PyVal := .vNone
  price_sale_che : PyVal := .vNone
  price_jeonse_eok : PyVal := .vNone
  price_jeonse_che : PyVal := .vNone
  wolse_rent_man : PyVal := .vNone
  condition : String := ""
  view : String := ""
  special_notes : String := ""
  note : String := ""
deriving DecidableEq

/-- A Viewing row.  `start` models `v.get("start_at") or v.get("start_iso")`;
`title = ""` models a falsy title (the `or "현장/상담"` default fires). -/
structure ViewingRec where
  id : Int := 0
  status : String := ""
  start : DTText := .blank
  title : String := ""
  memo : String := ""
deriving DecidableEq

/-! ## Auto-task keys and kinds -/

/-- The five auto-task `unique_key` families
(`f"AUTO_PROP_INFO:{pid}"`, …); the rendering is injective and keys are
only compared for equality, so the string is modelled by its constructor. -/
inductive AutoKey where
  | propInfo (pid : Int) : AutoKey
  | propPhoto (pid : Int) : AutoKey
  | viewOverdue (vid : Int) : AutoKey
  | viewPrep (vid : Int) : AutoKey
  | viewResult (vid : Int) : AutoKey
deriving DecidableEq

/-- A task `unique_key` value: either one of the engine's auto keys, or an
arbitrary string key on a manually created row. -/
inductive KeyT where
  | autoKey (a : AutoKey) : KeyT
  | manualKey (s : String) : KeyT
deriving DecidableEq

/-- Python truthiness of a `unique_key` (`if t.get("unique_key")`):
`None` and `""` are falsy. -/
def keyTruthy : Option KeyT → Bool
  | none => false
  | some (.autoKey _) => true
  | some (.manualKey s) => decide (s ≠ "")

/-- A task `kind`.  `autoKind` covers the five `AUTO_*` rule kinds (which
match `kind LIKE 'AUTO_%'`); `otherKind` covers every other kind string
(`"MANUAL"`, bare `"AUTO"`, …), none of which match the pattern. -/
inductive AutoTaskKind where
  | propInfo | propPhoto | viewOverdue | viewPrep | viewResult
deriving DecidableEq

inductive Kind where
  | autoKind (k : AutoTaskKind) : Kind
  | otherKind (s : String) : Kind
deriving DecidableEq

/-- `kind LIKE 'AUTO_%'` (the filter used by `list_auto_tasks`). -/
def kindIsAuto : Kind → Bool
  | .autoKind _ => true
  | .otherKind _ => false

/-- `tasks_engine.DesiredTask`. -/
structure DesiredTask where
  unique_key : KeyT
  kind : Kind
  entity_type : String
  entity_id : Option Int
  title : String
  due_at : Option Int := none
  note : String := ""
  status : String := "OPEN"
deriving DecidableEq

/-! ## Rule evaluator (`tasks_engine.compute_desired_auto_tasks`) -/

/-- One step of the photo-count accumulation (`photo_count[pid] += 1`).
A `None`/non-integer `property_id` is skipped. -/
def photoCountStep (acc : List (Int × Nat)) (ph : PhotoRec) : List (Int × Nat) :=
  match ph.property_id with
  | none => acc
  | some pid => dictInsert pid ((alookup pid acc).getD 0 + 1) acc

/-- `photo_count.get(pid, 0)`. -/
def countGet (pc : List (Int × Nat)) (pid : Int) : Nat :=
  (alookup pid pc).getD 0

/-- The body of the Properties loop of `compute_desired_auto_tasks`
(source lines 99–148): info-completeness and missing-photo rules.
Deleted or hidden rows are skipped. -/
def propertyStep (pc : List (Int × Nat)) (acc : List (KeyT × DesiredTask))
    (p : PropRec) : List (KeyT × DesiredTask) :=
  if p.deleted || p.hidden then acc
  else
    let pid := p.id
    let complexName := pyStrip p.complex_name
    let address := pyStrip p.address_detail
    let unitType := pyStrip p.unit_type
    let nameHint0 :=
      pyStrip (String.intercalate " "
        (([complexName, address, unitType].filter (fun x => x ≠ ""))))
    let nameHint := if nameHint0 = "" then "물건 " ++ toString pid else nameHint0
    let missing :=
      (if address = "" then ["동/호"] else []) ++
      (if p.area.isNone then ["면적"] else []) ++
      (if unitType = "" ∧ (p.tab = "봉담자이 프라이드시티" ∨ p.tab = "힐스테이트봉담프라이드시티")
        then ["타입"] else []) ++
      (if pyStrip p.floor = "" then ["층"] else [])
    let acc1 :=
      if missing = [] then acc
      else
        dictInsert (KeyT.autoKey (AutoKey.propInfo pid))
          { unique_key := KeyT.autoKey (AutoKey.propInfo pid)
            kind := Kind.autoKind AutoTaskKind.propInfo
            entity_type := "PROPERTY"
            entity_id := some pid
            title := "[정보 보완] " ++ nameHint ++ " (누락: " ++
              String.intercalate ", " missing ++ ")"
            due_at := none
            note := "핵심 항목이 누락되어 있습니다." } acc
    if p.status ≠ "거래완료" ∧ (countGet pc pid = 0 ∨ p.status = "사진필요") then
      dictInsert (KeyT.autoKey (AutoKey.propPhoto pid))
        { unique_key := KeyT.autoKey (AutoKey.propPhoto pid)
          kind := Kind.autoKind AutoTaskKind.propPhoto
          entity_type := "PROPERTY"
          entity_id := some pid
          title := "[사진 등록] " ++ nameHint
          due_at := none
          note := "고객 제안/광고용 사진이 필요합니다." } acc1
    else acc1

/-- The body of the Viewings loop of `compute_desired_auto_tasks`
(source lines 151–196): overdue / upcoming-prep / missing-result rules. -/
def viewingStep (now : Int) (acc : List (KeyT × DesiredTask))
    (v : ViewingRec) : List (KeyT × DesiredTask) :=
  let vid := v.id
  let status := pyStrip v.status
  let startDt := parse_dt v.start
  let title := pyStrip (if v.title = "" then "현장/상담" else v.title)
  let acc1 :=
    if status = "예정" then
      match startDt with
      | some sdt =>
          if sdt < now - 3600 then
            dictInsert (KeyT.autoKey (AutoKey.viewOverdue vid))
              { unique_key := KeyT.autoKey (AutoKey.viewOverdue vid)
                kind := Kind.autoKind AutoTaskKind.viewOverdue
                entity_type := "VIEWING"
                entity_id := some vid
                title := "[지난 일정 확인] " ++ title ++ " (" ++ toString (fmtLocal sdt) ++ ")"
                due_at := some (fmtLocal sdt)
                note := "일정이 지났는데 '예정'으로 남아있습니다. 완료/취소/메모를 정리하세요." } acc
          else if sdt ≤ now + 86400 then
            dictInsert (KeyT.autoKey (AutoKey.viewPrep vid))
              { unique_key := KeyT.autoKey (AutoKey.viewPrep vid)
                kind := Kind.autoKind AutoTaskKind.viewPrep
                entity_type := "VIEWING"
                entity_id := some vid
                title := "[일정 준비] " ++ title ++ " (" ++ toString (fmtLocal sdt) ++ ")"
                due_at := some (fmtLocal sdt)
                note := "고객 연락/주소/주차/열쇠/세입자 등 사전 체크." } acc
          else acc
      | none => acc
    else acc
  if status = "완료" ∧ pyStrip v.memo = "" then
    dictInsert (KeyT.autoKey (AutoKey.viewResult vid))
      { unique_key := KeyT.autoKey (AutoKey.viewResult vid)
        kind := Kind.autoKind AutoTaskKind.viewResult
        entity_type := "VIEWING"
        entity_id := some vid
        title := "[결과 기록] " ++ title ++ " (일정 " ++ toString vid ++ ")"
        due_at := none
        note := "완료된 일정인데 메모가 비어 있습니다. 결과/피드백을 남기세요." } acc1
  else acc1

/-- `tasks_engine.compute_desired_auto_tasks`: the desired auto-task dict
(`unique_key → DesiredTask`) derived from the current snapshots. -/
def compute_desired_auto_tasks (properties : List PropRec)
    (photos : List PhotoRec) (viewings : List ViewingRec) (now : Int) :
    List (KeyT × DesiredTask) :=
  let pc := photos.foldl photoCountStep []
  let d1 := properties.foldl (propertyStep pc) []
  viewings.foldl (viewingStep now) d1

/-! ## Matcher (`app/matching.py`) -/

/-- Outcome classification of the string fed to `matching.parse_range`
(after stripping `"㎡"`/`"평"`): `blank` is the empty string, `invalid`
matches neither regex, `single v` is a lone number, `pair lo hi` is an
`lo~hi` / `lo-hi` range. -/
inductive RangeText where
  | blank : RangeText
  | invalid : RangeText
  | single (v : ℚ) : RangeText
  | pair (lo hi : ℚ) : RangeText
deriving DecidableEq

/-- `matching.parse_range` (returns `(None, None)` on failure, modelled as
`none`; a single number `v` gives `(v, v)`). -/
def parse_range : RangeText → Option (ℚ × ℚ)
  | .blank => none
  | .invalid => none
  | .single v => some (v, v)
  | .pair lo hi => some (lo, hi)

/-- Leading-match of one character list against another. -/
def leadsWith : List Char → List Char → Bool
  | [], _ => true
  | _ :: _, [] => false
  | a :: as, b :: bs => a = b && leadsWith as bs

/-- Substring test on character lists (Python `needle in hay`). -/
def hasSub (needle : List Char) : List Char → Bool
  | [] => needle.isEmpty
  | c :: rest => leadsWith needle (c :: rest) || hasSub needle rest

/-- Python `needle in hay` on strings. -/
def strHasSub (needle hay : String) : Bool :=
  hasSub needle.toList hay.toList

/-- Digit-run accumulator for `parse_floor`. -/
def grabNum : List Char → Nat → Nat
  | [], acc => acc
  | c :: cs, acc =>
      if c.isDigit then grabNum cs (acc * 10 + (c.toNat - 48)) else acc

/-- First maximal digit run in a character list (`re.search(r"(\d+)", s)`). -/
def findNum : List Char → Option Nat
  | [] => none
  | c :: cs => if c.isDigit then some (grabNum cs (c.toNat - 48)) else findNum cs

/-- `matching.parse_floor`. -/
def parse_floor (s : String) : Option Int :=
  let t := pyStrip s
  if t = "" then none else (findNum t.toList).map Int.ofNat

/-- A set of deal types (subset of {매매, 전세, 월세}). -/
structure DealSet where
  sale : Bool := false
  jeonse : Bool := false
  wolse : Bool := false
deriving DecidableEq

/-- Python truthiness of the set (non-empty). -/
def dealNonempty (d : DealSet) : Bool :=
  d.sale || d.jeonse || d.wolse

/-- Set intersection. -/
def dealInter (a b : DealSet) : DealSet :=
  ⟨a.sale && b.sale, a.jeonse && b.jeonse, a.wolse && b.wolse⟩

/-- `matching._parse_deal_types`: split on commas, strip tokens, keep those
in {매매, 전세, 월세} (set semantics: membership of each allowed token). -/
def parse_deal_types (text : String) : DealSet :=
  let toks := (pySplitComma text).map pyStrip
  ⟨toks.contains "매매", toks.contains "전세", toks.contains "월세"⟩

/-- The property's offered deal types, from its three flags. -/
def propDeals (p : PropRec) : DealSet :=
  ⟨p.deal_sale, p.deal_jeonse, p.deal_wolse⟩

/-- `matching.MatchResult`. -/
structure MatchResult where
  property_id : Int
  score : Int
  reasons : List String
  property_row : PropRec
deriving DecidableEq

/-- Deal-type overlap reward (source lines 106–108). -/
def dealTerm (ov : DealSet) : Int × List String :=
  if dealNonempty ov then (15, ["거래유형 일치"]) else (0, [])

/-- Area-range rule (source lines 113–122): +30 in range, otherwise
`-int(min(15, dist / 2))`, flat +5 when no usable range or unknown area. -/
def areaTerm (r : Option (ℚ × ℚ)) (area : Option ℚ) : Int × List String :=
  match r, area with
  | some (lo, hi), some a =>
      if lo ≤ a ∧ a ≤ hi then (30, ["면적 범위 일치"])
      else (-(ratTrunc (min 15 (min |a - lo| |a - hi| / 2))), [])
  | _, _ => (5, [])

/-- Pyeong-range rule (source lines 124–132): +25 in range, otherwise
`-int(min(12, dist))`, flat +5 fallback. -/
def pyeongTerm (r : Option (ℚ × ℚ)) (pyeong : Option ℚ) : Int × List String :=
  match r, pyeong with
  | some (lo, hi), some py =>
      if lo ≤ py ∧ py ≤ hi then (25, ["평형 범위 일치"])
      else (-(ratTrunc (min 12 (min |py - lo| |py - hi|))), [])
  | _, _ => (5, [])

/-- `fl is not None and fl >= n` (used by the floor rule). -/
def flAtLeast (fl : Option Int) (n : Int) : Bool :=
  match fl with | some m => decide (n ≤ m) | none => false

/-- `fl is not None and fl <= n` (used by the floor rule). -/
def flAtMost (fl : Option Int) (n : Int) : Bool :=
  match fl with | some m => decide (m ≤ n) | none => false

/-- Floor-preference rule (source lines 135–144). -/
def floorTerm (pref : String) (fl : Option Int) : Int × List String :=
  if pref = "" then (0, [])
  else if strHasSub "고" pref && flAtLeast fl 15 then (10, ["고층 선호"])
  else if strHasSub "저" pref && flAtMost fl 5 then (10, ["저층 선호"])
  else if strHasSub "무관" pref then (3, [])
  else (0, [])

/-- The keyword haystack (source lines 147–154). -/
def hayOf (p : PropRec) : String :=
  pyLower (String.intercalate " " [p.view, p.special_notes, p.address_detail, p.note])

/-- View/location keyword rule (source lines 155–160): two independent
case-insensitive substring matches, +6 each. -/
def kwTerm (viewPref locPref : String) (hay : String) : Int × List String :=
  let v := if viewPref ≠ "" ∧ strHasSub (pyLower viewPref) hay then (6, ["뷰 키워드"])
    else ((0 : Int), ([] : List String))
  let l := if locPref ≠ "" ∧ strHasSub (pyLower locPref) hay then (6, ["위치 키워드"])
    else ((0 : Int), ([] : List String))
  (v.1 + l.1, v.2 ++ l.2)

/-- Condition weighting (source lines 163–167). -/
def condTerm (cond : String) : Int :=
  if cond = "상" then 4 else if cond = "중" then 2 else 0

/-- The candidate prices for the sale/jeonse budget rule
(source lines 170–174). -/
def saleJeonseCandidates (ov : DealSet) (p : PropRec) : List Int :=
  (if ov.sale then [eok_che_to_ten_million p.price_sale_eok p.price_sale_che] else []) ++
  (if ov.jeonse then [eok_che_to_ten_million p.price_jeonse_eok p.price_jeonse_che] else [])

/-- Budget rules (source lines 169–188): sale/jeonse budget first, else the
monthly-rent budget. -/
def budgetTerm (budget10m rentBudget10man : Int) (ov : DealSet) (p : PropRec) :
    Int × List String :=
  if (ov.sale || ov.jeonse) = true ∧ 0 < budget10m then
    match listMin? (saleJeonseCandidates ov p) with
    | some price10m =>
        if price10m ≤ budget10m then (18, ["예산 범위 일치"])
        else (-(min 20 (max 0 (price10m - budget10m) / 2)), [])
    | none => (0, [])
  else if ov.wolse = true ∧ 0 < rentBudget10man then
    let pRent := man_to_ten_man p.wolse_rent_man
    if pRent ≤ rentBudget10man then (16, ["월세 예산 범위 일치"])
    else (-(min 20 (max 0 (pRent - rentBudget10man))), [])
  else (0, [])

/-- A Customer row (the fields the matcher reads).  The two range strings
are modelled by their parse outcome (`RangeText`), the budget cells by
`PyVal`; everything else is the raw string. -/
structure CustomerRec where
  preferred_tab : String := ""
  preferred_area : RangeText := .blank
  preferred_pyeong : RangeText := .blank
  floor_preference : String := ""
  view_preference : String := ""
  location_preference : String := ""
  deal_type : String := ""
  budget_10m : PyVal := .vNone
  wolse_rent_10man : PyVal := .vNone
deriving DecidableEq

/-- The hard tab filter of `match_properties` (source lines 93–95). -/
def tabRejects (c : CustomerRec) (p : PropRec) : Bool :=
  let prefTabs := ((pySplitComma (pyStrip c.preferred_tab)).map pyStrip).filter
    (fun t => t ≠ "")
  let propTab := pyStrip p.tab
  decide (prefTabs ≠ []) && decide (propTab ≠ "") && !(prefTabs.contains propTab)

/-- The hard deal-type filter
(`if deal_types and not deal_overlap: continue`). -/
def dealRejects (c : CustomerRec) (p : PropRec) : Bool :=
  dealNonempty (parse_deal_types c.deal_type) &&
    !(dealNonempty (dealInter (parse_deal_types c.deal_type) (propDeals p)))

/-- The per-candidate body of `matching.match_properties` (source lines
91–190): the two hard filters, then the additive score and reasons.
Note that the function does **not** look at `hidden`/`deleted` — the
source docstring says callers are assumed to pre-filter those. -/
def matchOne (c : CustomerRec) (p : PropRec) : Option MatchResult :=
  if tabRejects c p then none
  else if dealRejects c p then none
  else
      let ov := dealInter (parse_deal_types c.deal_type) (propDeals p)
      let t1 := dealTerm ov
      let t2 := areaTerm (parse_range c.preferred_area) p.area
      let t3 := pyeongTerm (parse_range c.preferred_pyeong) p.pyeong
      let t4 := floorTerm (pyStrip c.floor_preference) (parse_floor p.floor)
      let t5 := kwTerm (pyStrip c.view_preference) (pyStrip c.location_preference) (hayOf p)
      let t6 := condTerm (pyStrip p.condition)
      let t7 := budgetTerm (to_int c.budget_10m 0) (to_int c.wolse_rent_10man 0) ov p
      some { property_id := p.id
             score := t1.1 + t2.1 + t3.1 + t4.1 + t5.1 + t6 + t7.1
             reasons := t1.2 ++ t2.2 ++ t3.2 ++ t4.2 ++ t5.2 ++ t7.2
             property_row := p }

/-- Stable descending insertion (a new result goes after every already
placed result with an equal or higher score), matching the stability of
Python's `list.sort(key=..., reverse=True)`. -/
def insertDesc (r : MatchResult) : List MatchResult → List MatchResult
  | [] => [r]
  | x :: xs => if x.score < r.score then r :: x :: xs else x :: insertDesc r xs

/-- Stable sort by score, highest first. -/
def sortDesc (l : List MatchResult) : List MatchResult :=
  l.foldl (fun acc r => insertDesc r acc) []

/-- `matching.match_properties`: rank the candidates for one customer and
truncate to `limit`. -/
def match_properties (c : CustomerRec) (properties : List PropRec)
    (limit : Nat) : List MatchResult :=
  (sortDesc (properties.filterMap (matchOne c))).take limit

/-! ## Record Store and reconciler
(`app/storage.py` task primitives, `tasks_engine.reconcile_auto_tasks`) -/

/-- A row of the `tasks` table. -/
structure TaskRow where
  id : Nat
  uniqueKey : Option KeyT
  kind : Kind
  entityType : Option String
  entityId : Option Int
  title : String
  dueAt : Option Int
  status : String
  note : String
deriving DecidableEq

/-- The embedded database state: the entity tables plus the `tasks` table
and its autoincrement counter. -/
structure Store where
  properties : List PropRec
  photos : List PhotoRec
  viewings : List ViewingRec
  tasks : List TaskRow
  nextId : Nat
deriving DecidableEq

/-- `storage.list_properties(include_deleted=...)` (`WHERE deleted=0`
unless deleted rows are included; the `ORDER BY` is omitted — nothing the
engine derives depends on row order of distinct ids). -/
def list_properties (includeDeleted : Bool) (st : Store) : List PropRec :=
  st.properties.filter (fun p => includeDeleted || !p.deleted)

/-- `storage.list_photos_all()`. -/
def list_photos_all (st : Store) : List PhotoRec :=
  st.photos

/-- `storage.list_viewings()`. -/
def list_viewings (st : Store) : List ViewingRec :=
  st.viewings

/-- `storage.list_auto_tasks(include_done=...)`
(= `list_tasks(include_done, kind_prefix="AUTO_")`; the `ORDER BY` is
omitted — only membership and count are ever used here). -/
def list_auto_tasks (includeDone : Bool) (st : Store) : List TaskRow :=
  st.tasks.filter (fun r =>
    (includeDone || decide (r.status = "OPEN")) && kindIsAuto r.kind)

/-- `storage.upsert_task_unique`: `INSERT ... ON CONFLICT(unique_key) DO
UPDATE` — update the row holding `unique_key` if one exists (the store's
unique index guarantees there is at most one), else insert a fresh row
with the next id. -/
def upsert_task_unique (k : KeyT) (kind : Kind) (etype : Option String)
    (eid : Option Int) (title : String) (due : Option Int) (status : String)
    (note : String) (st : Store) : Store :=
  if st.tasks.any (fun r => decide (r.uniqueKey = some k)) then
    { st with tasks := st.tasks.map (fun r =>
        if r.uniqueKey = some k then
          { r with kind := kind, entityType := etype, entityId := eid,
                   title := title, dueAt := due, status := status, note := note }
        else r) }
  else
    { st with
      tasks := st.tasks ++
        [{ id := st.nextId, uniqueKey := some k, kind := kind,
           entityType := etype, entityId := eid, title := title,
           dueAt := due, status := status, note := note }]
      nextId := st.nextId + 1 }

/-- `storage.set_task_status` (`UPDATE tasks SET status=? WHERE id=?`). -/
def set_task_status (tid : Nat) (status : String) (st : Store) : Store :=
  { st with tasks := st.tasks.map (fun r =>
      if r.id = tid then { r with status := status } else r) }

/-- The upsert loop of `reconcile_auto_tasks` (source lines 219–230).
`failUp k = true` injects a store failure into the upsert for key `k`;
the loop has **no** try/except, so a failure propagates immediately
(`Except.error` carries the store as mutated so far). -/
def upsertDesired (failUp : KeyT → Bool) :
    List (KeyT × DesiredTask) → Store → Except Store Store
  | [], st => .ok st
  | (k, t) :: rest, st =>
      if failUp k then .error st
      else upsertDesired failUp rest
        (upsert_task_unique k t.kind (some t.entity_type) t.entity_id
          t.title t.due_at "OPEN" t.note st)

/-- The resolve loop of `reconcile_auto_tasks` (source lines 232–238): for
every snapshotted row whose (truthy) key is not desired and whose
snapshotted status is OPEN, set it to DONE.  This loop **does** wrap each
transition in try/except (`failSet tid = true` injects a failure, which
is swallowed and the loop continues). -/
def resolveObsolete (failSet : Nat → Bool) (dkeys : List KeyT) :
    List (KeyT × TaskRow) → Store → Store
  | [], st => st
  | (k, row) :: rest, st =>
      if keyTruthy (some k) && !keyMem k dkeys && decide (row.status = "OPEN") then
        if failSet row.id then resolveObsolete failSet dkeys rest st
        else resolveObsolete failSet dkeys rest (set_task_status row.id "DONE" st)
      else resolveObsolete failSet dkeys rest st

/-- `existing_by_key` (source line 217): dict from truthy `unique_key` to
its row, built over the pre-upsert snapshot. -/
def existingByKey (rows : List TaskRow) : List (KeyT × TaskRow) :=
  rows.foldl (fun acc r =>
    match r.uniqueKey with
    | some k => if keyTruthy (some k) then dictInsert k r acc else acc
    | none => acc) []

/-- `tasks_engine.reconcile_auto_tasks`, with fault injection: load the
snapshots, compute the desired dict, snapshot the existing auto tasks,
upsert every desired task (a failure here propagates), resolve every
no-longer-desired OPEN auto task (failures here are swallowed), and
return the count of OPEN auto tasks. -/
def reconcile_auto_tasks (failUp : KeyT → Bool) (failSet : Nat → Bool)
    (now : Int) (st : Store) : Except Unit Nat × Store :=
  let properties := list_properties false st
  let photos := list_photos_all st
  let viewings := list_viewings st
  let desired := compute_desired_auto_tasks properties photos viewings now
  let dkeys := desired.map (fun e => e.1)
  let existing := list_auto_tasks true st
  match upsertDesired failUp desired st with
  | .error stPartial => (.error (), stPartial)
  | .ok st1 =>
      let st2 := resolveObsolete failSet dkeys (existingByKey existing) st1
      (.ok (list_auto_tasks false st2).length, st2)

/-- `reconcile()` as the callers run it: no injected store failures. -/
def reconcile (now : Int) (st : Store) : Except Unit Nat × Store :=
  reconcile_auto_tasks (fun _ => false) (fun _ => false) now st

/-! ## Store well-formedness (what the SQLite schema enforces) -/

/-- No two rows share a non-NULL `unique_key` (the `UNIQUE` index). -/
def keysOk : List TaskRow → Bool
  | [] => true
  | r :: rest =>
      (match r.uniqueKey with
       | some k => rest.all (fun r2 => decide (r2.uniqueKey ≠ some k))
       | none => true) && keysOk rest

/-- Primary keys are pairwise distinct and below the autoincrement
counter. -/
def idsOk (n : Nat) : List TaskRow → Bool
  | [] => true
  | r :: rest =>
      decide (r.id < n) && rest.all (fun r2 => decide (r2.id ≠ r.id)) && idsOk n rest

/-- Store well-formedness. -/
def storeWF (st : Store) : Bool :=
  keysOk st.tasks && idsOk st.nextId st.tasks

/-! ## Reconciler proof infrastructure

Named forms of the intermediate states of one `reconcile_auto_tasks` pass
(definitional unfoldings of the functions above, used to state lemmas). -/

/-- The row content an upsert of desired task `t` writes (the
`ON CONFLICT ... DO UPDATE SET` column list, with `status` forced OPEN). -/
def applyDesired (t : DesiredTask) (r : TaskRow) : TaskRow :=
  { r with kind := t.kind, entityType := some t.entity_type,
           entityId := t.entity_id, title := t.title, dueAt := t.due_at,
           status := "OPEN", note := t.note }

/-- The single upsert the reconciler issues for desired entry `(k, t)`. -/
def upsertD (k : KeyT) (t : DesiredTask) (st : Store) : Store :=
  upsert_task_unique k t.kind (some t.entity_type) t.entity_id t.title
    t.due_at "OPEN" t.note st

/-- The whole upsert loop when no upsert fails. -/
def upsertAllP : List (KeyT × DesiredTask) → Store → Store
  | [], st => st
  | (k, t) :: rest, st => upsertAllP rest (upsertD k t st)

/-- The desired dict a reconciliation pass over `st` computes. -/
def desiredOf (now : Int) (st : Store) : List (KeyT × DesiredTask) :=
  compute_desired_auto_tasks (list_properties false st) (list_photos_all st)
    (list_viewings st) now

/-- The store after one full pass (upserts all succeeding, transitions
subject to `failSet`). -/
def pass1F (failSet : Nat → Bool) (now : Int) (st : Store) : Store :=
  resolveObsolete failSet ((desiredOf now st).map Prod.fst)
    (existingByKey (list_auto_tasks true st)) (upsertAllP (desiredOf now st) st)

/-- Mark DONE the rows whose id is listed. -/
def doneIf (ids : List Nat) (r : TaskRow) : TaskRow :=
  if r.id ∈ ids then { r with status := "DONE" } else r

/-- The ids the resolve loop actually transitions. -/
def targetIds (failSet : Nat → Bool) (dkeys : List KeyT) :
    List (KeyT × TaskRow) → List Nat
  | [] => []
  | (k, row) :: rest =>
      if keyTruthy (some k) && !keyMem k dkeys && decide (row.status = "OPEN") then
        (if failSet row.id then targetIds failSet dkeys rest
         else row.id :: targetIds failSet dkeys rest)
      else targetIds failSet dkeys rest

/-- `(k, t)` is satisfied in `st`: some row carries key `k`, and every row
carrying key `k` holds exactly the upserted content of `t`. -/
def rowHasDesired (k : KeyT) (t : DesiredTask) (st : Store) : Prop :=
  (∃ r ∈ st.tasks, r.uniqueKey = some k) ∧
  (∀ r ∈ st.tasks, r.uniqueKey = some k → r = applyDesired t r)

/-! ## Concrete stores used to exercise the reconciler -/

/-- A store with one incomplete property (no address, no area, no photos)
and one stale OPEN auto task whose key is no longer desired. -/
def c2Store : Store :=
  { properties := [{ id := 1, floor := "3" }]
    photos := []
    viewings := []
    tasks := [{ id := 0, uniqueKey := some (.autoKey (.propPhoto 99)),
                kind := .autoKind .propPhoto, entityType := some "PROPERTY",
                entityId := some 99, title := "old", dueAt := none,
                status := "OPEN", note := "" }]
    nextId := 1 }

/-- A store whose two incomplete properties give four desired auto tasks. -/
def c3Store : Store :=
  { properties := [{ id := 1 }, { id := 2 }]
    photos := []
    viewings := []
    tasks := []
    nextId := 0 }

/-- A stale OPEN auto task. -/
def c3RowA : TaskRow :=
  { id := 1, uniqueKey := some (.autoKey (.propPhoto 7)),
    kind := .autoKind .propPhoto, entityType := none, entityId := none,
    title := "", dueAt := none, status := "OPEN", note := "" }

/-- A second stale OPEN auto task. -/
def c3RowB : TaskRow :=
  { c3RowA with id := 2, uniqueKey := some (.autoKey (.propPhoto 8)) }

/-- A store holding only two stale OPEN auto tasks. -/
def c3StoreB : Store :=
  { properties := []
    photos := []
    viewings := []
    tasks := [c3RowA, c3RowB]
    nextId := 3 }

/-! ## C8: money round-trips -/

/-- Claim C8: splitting a non-negative 10-million-won integer into
`(eok, che)` and recombining returns it unchanged; converting man-won to
10-man-won and back is the floor to the nearest multiple of 10 (exact
exactly for multiples of 10), all in integer arithmetic. -/
theorem money_roundtrip (n m : Int) (hn : 0 ≤ n) (hm : 0 ≤ m) :
    eok_che_to_ten_million (.vInt (ten_million_to_eok_che (.vInt n)).1)
        (.vInt (ten_million_to_eok_che (.vInt n)).2) = n ∧
    ten_man_to_man (.vInt (man_to_ten_man (.vInt m))) = m - m % 10 ∧
    (m % 10 = 0 → ten_man_to_man (.vInt (man_to_ten_man (.vInt m))) = m) := by
  simp only [eok_che_to_ten_million, ten_million_to_eok_che, ten_man_to_man,
    man_to_ten_man, to_int]
  refine ⟨by omega, by omega, fun h => by omega⟩

/-- Witness for C8 at the spec's own examples: 7 round-trips to 7, and
95 man-won floors to 90. -/
theorem money_roundtrip_witness :
    eok_che_to_ten_million (.vInt (ten_million_to_eok_che (.vInt 7)).1)
        (.vInt (ten_million_to_eok_che (.vInt 7)).2) = 7 ∧
    ten_man_to_man (.vInt (man_to_ten_man (.vInt 95))) = 95 - 95 % 10 := by
  have h := money_roundtrip 7 95 (by decide) (by decide)
  exact ⟨h.1, h.2.1⟩

/-! ## C10: money conversions are total and non-negative -/

/-- Claim C10: every money conversion is total, `to_int` falls back to its
default on `None`/blank/non-numeric input, the combined conversions are
clamped to be non-negative, and the eok/che split satisfies `0 ≤ eok` and
`0 ≤ che ≤ 9`. -/
theorem money_total_nonneg (v w : PyVal) (d : Int) :
    0 ≤ eok_che_to_ten_million v w ∧
    0 ≤ ten_man_to_man v ∧
    0 ≤ man_to_ten_man v ∧
    0 ≤ (ten_million_to_eok_che v).1 ∧
    0 ≤ (ten_million_to_eok_che v).2 ∧ (ten_million_to_eok_che v).2 ≤ 9 ∧
    to_int .vBad d = d ∧ to_int .vNone d = d ∧ to_int .vBlank d = d := by
  simp only [eok_che_to_ten_million, ten_million_to_eok_che, ten_man_to_man,
    man_to_ten_man, to_int]
  refine ⟨by omega, by omega, by omega, by omega, by omega, by omega, trivial, trivial, trivial⟩

/-! ## C1 and C9: the viewing overdue/prep rules -/

/-- The claim's window for `AUTO_VIEWING_PREP` is start time in
`[now, now + 24h]`; the code's window is `[now - 1h, now + 24h]`: a
scheduled viewing starting 30 minutes in the past (not overdue, since the
overdue threshold is one hour) still gets a prep task.  Concretely, with
`now = 0` and start `-1800` the prep task is emitted although the start
does not lie between `now` and `now + 24h`. -/
theorem viewing_prep_past_window_cex :
    (alookup (KeyT.autoKey (AutoKey.viewPrep 1))
      (compute_desired_auto_tasks [] []
        [{ id := 1, status := "예정", start := .parsed (-1800) }] 0)).isSome = true ∧
    ¬ ((0 : Int) ≤ -1800) := by
  constructor
  · decide
  · decide

/-- Claim C1 as amended: for a scheduled viewing with parseable start time
`t`, `AUTO_VIEWING_PREP` is emitted exactly when `now - 1h ≤ t ≤ now + 24h`
(i.e. the viewing is not overdue and starts within 24 hours), its `due_at`
is the start time (at minute precision), and the prep and overdue tasks
are never both emitted for the viewing. -/
theorem viewing_prep_window (v : ViewingRec) (now t : Int)
    (hs : pyStrip v.status = "예정") (hp : parse_dt v.start = some t) :
    ((alookup (KeyT.autoKey (AutoKey.viewPrep v.id))
        (compute_desired_auto_tasks [] [] [v] now)).isSome = true ↔
      (now - 3600 ≤ t ∧ t ≤ now + 86400)) ∧
    ¬ ((alookup (KeyT.autoKey (AutoKey.viewPrep v.id))
        (compute_desired_auto_tasks [] [] [v] now)).isSome = true ∧
       (alookup (KeyT.autoKey (AutoKey.viewOverdue v.id))
        (compute_desired_auto_tasks [] [] [v] now)).isSome = true) ∧
    (∀ dt, alookup (KeyT.autoKey (AutoKey.viewPrep v.id))
        (compute_desired_auto_tasks [] [] [v] now) = some dt →
      dt.due_at = some (fmtLocal t)) := by
  have hne : ¬ (("예정" : String) = "완료" ∧ pyStrip v.memo = "") := by
    intro h
    exact absurd h.1 (by decide)
  simp only [compute_desired_auto_tasks, List.foldl, viewingStep, hs, hp,
    if_pos rfl, if_neg hne]
  by_cases h1 : t < now - 3600
  · simp only [if_pos h1, alookup, if_neg (by simp : ¬ (KeyT.autoKey
      (AutoKey.viewOverdue v.id) = KeyT.autoKey (AutoKey.viewPrep v.id)))]
    constructor
    · simp only [Option.isSome_none, Bool.false_eq_true, false_iff]
      omega
    constructor
    · intro hcon
      exact (Bool.false_ne_true hcon.1).elim
    · intro dt hdt
      exact absurd hdt (by simp)
  · by_cases h2 : t ≤ now + 86400
    · simp only [if_neg h1, if_pos h2, alookup, if_pos rfl,
        if_neg (by simp : ¬ (KeyT.autoKey (AutoKey.viewPrep v.id) = KeyT.autoKey
          (AutoKey.viewOverdue v.id)))]
      refine ⟨by simp; omega, ?_, ?_⟩
      · intro hcon
        simp at hcon
      · intro dt hdt
        cases hdt
        rfl
    · simp only [if_neg h1, if_neg h2, alookup]
      refine ⟨by simp; omega, by simp, by simp⟩

/-- Witness for C1 (amended): a viewing starting 2 hours ahead of `now = 0`
gets a prep task with the start time as due date. -/
theorem viewing_prep_window_witness :
    ((alookup (KeyT.autoKey (AutoKey.viewPrep 5))
        (compute_desired_auto_tasks [] []
          [{ id := 5, status := "예정", start := .parsed 7200 }] 0)).isSome = true ↔
      ((0 : Int) - 3600 ≤ 7200 ∧ (7200 : Int) ≤ 0 + 86400)) ∧
    (0 : Int) - 3600 ≤ 7200 ∧ (7200 : Int) ≤ 0 + 86400 := by
  refine ⟨(viewing_prep_window
    { id := 5, status := "예정", start := .parsed 7200 } 0 7200 (by decide) rfl).1,
    by decide, by decide⟩

/-- Claim C9: a viewing whose start-time text parses under none of the
accepted formats yields neither an overdue nor a prep task (the evaluator
treats the timestamp as absent; it is a total function, so it cannot
raise). -/
theorem unparseable_start_no_viewing_tasks (v : ViewingRec) (now : Int)
    (hp : parse_dt v.start = none) :
    alookup (KeyT.autoKey (AutoKey.viewOverdue v.id))
      (compute_desired_auto_tasks [] [] [v] now) = none ∧
    alookup (KeyT.autoKey (AutoKey.viewPrep v.id))
      (compute_desired_auto_tasks [] [] [v] now) = none := by
  simp only [compute_desired_auto_tasks, List.foldl, viewingStep, hp]
  by_cases h1 : pyStrip v.status = "예정" <;>
    by_cases h2 : pyStrip v.status = "완료" ∧ pyStrip v.memo = "" <;>
    simp [h1, h2, alookup]

/-- Witness for C9: a scheduled viewing with an unparseable start string
produces no overdue/prep task. -/
theorem unparseable_start_no_viewing_tasks_witness :
    alookup (KeyT.autoKey (AutoKey.viewOverdue 3))
      (compute_desired_auto_tasks [] []
        [{ id := 3, status := "예정", start := .unparseable }] 0) = none ∧
    alookup (KeyT.autoKey (AutoKey.viewPrep 3))
      (compute_desired_auto_tasks [] []
        [{ id := 3, status := "예정", start := .unparseable }] 0) = none :=
  unparseable_start_no_viewing_tasks
    { id := 3, status := "예정", start := .unparseable } 0 rfl

/-! ## Helper lemmas about the matcher -/

theorem mem_insertDesc (a r : MatchResult) (l : List MatchResult) :
    a ∈ insertDesc r l ↔ a = r ∨ a ∈ l := by
  induction l with
  | nil => simp [insertDesc]
  | cons x xs ih =>
      simp only [insertDesc]
      split
      · simp
      · simp [ih]
        tauto

theorem mem_sortDesc_aux (l : List MatchResult) :
    ∀ (acc : List MatchResult) (a : MatchResult),
      a ∈ l.foldl (fun acc r => insertDesc r acc) acc → a ∈ acc ∨ a ∈ l := by
  induction l with
  | nil => intro acc a h; exact Or.inl h
  | cons x xs ih =>
      intro acc a h
      rcases ih (insertDesc x acc) a h with h' | h'
      · rcases (mem_insertDesc a x acc).mp h' with h'' | h''
        · exact Or.inr (by simp [h''])
        · exact Or.inl h''
      · exact Or.inr (by simp [h'])

theorem mem_of_mem_sortDesc (a : MatchResult) (l : List MatchResult)
    (h : a ∈ sortDesc l) : a ∈ l := by
  rcases mem_sortDesc_aux l [] a h with h' | h'
  · simp at h'
  · exact h'

theorem matchOne_some_row (c : CustomerRec) (p : PropRec) (r : MatchResult)
    (h : matchOne c p = some r) : r.property_row = p := by
  unfold matchOne at h
  by_cases ht : tabRejects c p = true
  · simp [ht] at h
  · by_cases hd : dealRejects c p = true
    · simp [ht, hd] at h
    · simp only [ht, hd, if_neg, Bool.false_eq_true, if_false] at h
      injection h with h'
      rw [← h']

theorem matchOne_some_score (c : CustomerRec) (p : PropRec) (r : MatchResult)
    (h : matchOne c p = some r) :
    r.score =
      (dealTerm (dealInter (parse_deal_types c.deal_type) (propDeals p))).1 +
      (areaTerm (parse_range c.preferred_area) p.area).1 +
      (pyeongTerm (parse_range c.preferred_pyeong) p.pyeong).1 +
      (floorTerm (pyStrip c.floor_preference) (parse_floor p.floor)).1 +
      (kwTerm (pyStrip c.view_preference) (pyStrip c.location_preference) (hayOf p)).1 +
      condTerm (pyStrip p.condition) +
      (budgetTerm (to_int c.budget_10m 0) (to_int c.wolse_rent_10man 0)
        (dealInter (parse_deal_types c.deal_type) (propDeals p)) p).1 := by
  unfold matchOne at h
  by_cases ht : tabRejects c p = true
  · simp [ht] at h
  · by_cases hd : dealRejects c p = true
    · simp [ht, hd] at h
    · simp only [ht, hd, Bool.false_eq_true, if_false] at h
      injection h with h'
      rw [← h']

theorem matchOne_some_reasons (c : CustomerRec) (p : PropRec) (r : MatchResult)
    (h : matchOne c p = some r) :
    r.reasons =
      (dealTerm (dealInter (parse_deal_types c.deal_type) (propDeals p))).2 ++
      (areaTerm (parse_range c.preferred_area) p.area).2 ++
      (pyeongTerm (parse_range c.preferred_pyeong) p.pyeong).2 ++
      (floorTerm (pyStrip c.floor_preference) (parse_floor p.floor)).2 ++
      (kwTerm (pyStrip c.view_preference) (pyStrip c.location_preference) (hayOf p)).2 ++
      (budgetTerm (to_int c.budget_10m 0) (to_int c.wolse_rent_10man 0)
        (dealInter (parse_deal_types c.deal_type) (propDeals p)) p).2 := by
  unfold matchOne at h
  by_cases ht : tabRejects c p = true
  · simp [ht] at h
  · by_cases hd : dealRejects c p = true
    · simp [ht, hd] at h
    · simp only [ht, hd, Bool.false_eq_true, if_false] at h
      injection h with h'
      rw [← h']

theorem matchOne_none_of_dealRejects (c : CustomerRec) (p : PropRec)
    (h : dealRejects c p = true) : matchOne c p = none := by
  unfold matchOne
  by_cases ht : tabRejects c p = true <;> simp [ht, h]

/-! ## C4: deleted/hidden properties -/

/-- A hidden property handed directly to `match_properties` is **not**
excluded: with an unconstrained customer it comes back as a result (the
source assumes callers pre-filter hidden/deleted rows). -/
theorem match_includes_hidden_cex :
    ((match_properties {} [{ id := 7, hidden := true }] 30).map
      (fun r => r.property_id)) = [7] ∧
    ({ id := 7, hidden := true } : PropRec).hidden = true := by
  constructor <;> decide

/-- Claim C4 as amended: the rule evaluator derives no desired auto-task
from a deleted or hidden property (prepending such a property leaves the
desired dict unchanged); `match_properties` itself does not filter
deleted/hidden rows — that exclusion is its callers' responsibility. -/
theorem auto_tasks_skip_deleted_hidden (p : PropRec) (props : List PropRec)
    (photos : List PhotoRec) (viewings : List ViewingRec) (now : Int)
    (h : (p.deleted || p.hidden) = true) :
    compute_desired_auto_tasks (p :: props) photos viewings now =
      compute_desired_auto_tasks props photos viewings now := by
  simp only [compute_desired_auto_tasks, List.foldl_cons, propertyStep, h, if_true]

/-- Witness for C4 (amended): a deleted property contributes nothing. -/
theorem auto_tasks_skip_deleted_hidden_witness :
    compute_desired_auto_tasks
        [{ id := 4, deleted := true }] []
        [{ id := 3, status := "예정", start := .unparseable }] 0 =
      compute_desired_auto_tasks [] []
        [{ id := 3, status := "예정", start := .unparseable }] 0 :=
  auto_tasks_skip_deleted_hidden { id := 4, deleted := true } [] []
    [{ id := 3, status := "예정", start := .unparseable }] 0 (by decide)

/-! ## C5: the deal-type hard filter -/

/-- Claim C5: (i) a property whose offered deal types do not intersect a
non-empty requested set never appears in the results (for any candidate
list and any limit); (ii) when the customer requested no deal types the
deal filter rejects nothing; (iii) a customer requesting 전세,월세 against
sale-only / jeonse-only / wolse-only properties matches exactly the
jeonse-only and wolse-only ones. -/
theorem deal_type_filter :
    (∀ (c : CustomerRec) (p : PropRec) (props : List PropRec) (limit : Nat)
        (r : MatchResult),
        dealNonempty (parse_deal_types c.deal_type) = true →
        dealNonempty (dealInter (parse_deal_types c.deal_type) (propDeals p)) = false →
        r ∈ match_properties c props limit → r.property_row ≠ p) ∧
    (∀ (c : CustomerRec) (p : PropRec),
        dealNonempty (parse_deal_types c.deal_type) = false →
        dealRejects c p = false) ∧
    ((match_properties { deal_type := "전세,월세" }
        [{ id := 1, tab := "A", deal_sale := true },
         { id := 2, tab := "A", deal_jeonse := true },
         { id := 3, tab := "A", deal_wolse := true }] 10).map
        (fun r => r.property_id) = [2, 3]) := by
  refine ⟨?_, ?_, by decide⟩
  · intro c p props limit r h1 h2 hmem heq
    have hrej : dealRejects c p = true := by
      simp [dealRejects, h1, h2]
    have hmem1 : r ∈ sortDesc (props.filterMap (matchOne c)) :=
      List.mem_of_mem_take hmem
    have hmem2 : r ∈ props.filterMap (matchOne c) :=
      mem_of_mem_sortDesc _ _ hmem1
    obtain ⟨q, _, hmq⟩ := List.mem_filterMap.mp hmem2
    have hq : r.property_row = q := matchOne_some_row _ _ _ hmq
    rw [heq] at hq
    rw [← hq] at hmq
    rw [matchOne_none_of_dealRejects c p hrej] at hmq
    exact Option.noConfusion hmq
  · intro c p h
    simp [dealRejects, h]

/-- Witness for C5: the jeonse-only result of the concrete scenario is in
the results, it does not come from the sale-only property, and the empty
deal-type customer rejects nothing. -/
theorem deal_type_filter_witness :
    (({ property_id := 2, score := 25, reasons := ["거래유형 일치"],
        property_row := { id := 2, tab := "A", deal_jeonse := true } } : MatchResult) ∈
      match_properties { deal_type := "전세,월세" }
        [{ id := 1, tab := "A", deal_sale := true },
         { id := 2, tab := "A", deal_jeonse := true },
         { id := 3, tab := "A", deal_wolse := true }] 10) ∧
    ({ property_id := 2, score := 25, reasons := ["거래유형 일치"],
       property_row := { id := 2, tab := "A", deal_jeonse := true } } : MatchResult).property_row ≠
      { id := 1, tab := "A", deal_sale := true } ∧
    dealRejects {} { id := 1, tab := "A", deal_sale := true } = false := by
  refine ⟨by decide, ?_, ?_⟩
  · exact deal_type_filter.1 { deal_type := "전세,월세" }
      { id := 1, tab := "A", deal_sale := true }
      [{ id := 1, tab := "A", deal_sale := true },
       { id := 2, tab := "A", deal_jeonse := true },
       { id := 3, tab := "A", deal_wolse := true }] 10
      _ (by decide) (by decide) (by decide)
  · exact deal_type_filter.2.1 {} { id := 1, tab := "A", deal_sale := true } (by decide)

/-! ## C6: budget monotonicity -/

/-- Claim C6: for two candidates identical except in the sale price, with a
positive sale/jeonse budget, a sale/jeonse overlap, the cheaper one's
applicable price (minimum over the overlapping deal types) at or under
budget and the other's over budget, the cheaper one scores strictly
higher. -/
theorem budget_monotone (c : CustomerRec) (p1 : PropRec) (e2 ch2 : PyVal)
    (r1 r2 : MatchResult) (n1 n2 : Int)
    (h1 : matchOne c p1 = some r1)
    (h2 : matchOne c { p1 with price_sale_eok := e2, price_sale_che := ch2 } = some r2)
    (hov : ((dealInter (parse_deal_types c.deal_type) (propDeals p1)).sale ||
            (dealInter (parse_deal_types c.deal_type) (propDeals p1)).jeonse) = true)
    (hB : 0 < to_int c.budget_10m 0)
    (hn1 : listMin? (saleJeonseCandidates
            (dealInter (parse_deal_types c.deal_type) (propDeals p1)) p1) = some n1)
    (hn2 : listMin? (saleJeonseCandidates
            (dealInter (parse_deal_types c.deal_type) (propDeals p1))
            { p1 with price_sale_eok := e2, price_sale_che := ch2 }) = some n2)
    (hle : n1 ≤ to_int c.budget_10m 0)
    (hgt : to_int c.budget_10m 0 < n2) :
    r2.score < r1.score := by
  have hs1 := matchOne_some_score c p1 r1 h1
  have hs2' := matchOne_some_score c
    { p1 with price_sale_eok := e2, price_sale_che := ch2 } r2 h2
  -- every projection of the updated record other than the two sale-price
  -- cells is definitionally that of `p1`
  have hs2 : r2.score =
      (dealTerm (dealInter (parse_deal_types c.deal_type) (propDeals p1))).1 +
      (areaTerm (parse_range c.preferred_area) p1.area).1 +
      (pyeongTerm (parse_range c.preferred_pyeong) p1.pyeong).1 +
      (floorTerm (pyStrip c.floor_preference) (parse_floor p1.floor)).1 +
      (kwTerm (pyStrip c.view_preference) (pyStrip c.location_preference) (hayOf p1)).1 +
      condTerm (pyStrip p1.condition) +
      (budgetTerm (to_int c.budget_10m 0) (to_int c.wolse_rent_10man 0)
        (dealInter (parse_deal_types c.deal_type) (propDeals p1))
        { p1 with price_sale_eok := e2, price_sale_che := ch2 }).1 := hs2'
  have hguard : ((dealInter (parse_deal_types c.deal_type) (propDeals p1)).sale ||
      (dealInter (parse_deal_types c.deal_type) (propDeals p1)).jeonse) = true ∧
      0 < to_int c.budget_10m 0 := ⟨hov, hB⟩
  rw [hs1, hs2]
  simp only [budgetTerm, if_pos hguard, hn1, hn2, if_pos hle,
    if_neg (not_le.mpr hgt)]
  have hpen : 0 ≤ min 20 (max 0 (n2 - to_int c.budget_10m 0) / 2) := by
    have h0 : (0 : Int) ≤ max 0 (n2 - to_int c.budget_10m 0) := le_max_left _ _
    have : (0 : Int) ≤ max 0 (n2 - to_int c.budget_10m 0) / 2 :=
      Int.ediv_nonneg h0 (by norm_num)
    exact le_min (by norm_num) this
  omega

/-- Witness for C6: a sale-only customer with budget 5 against prices 5 and
9 (in 10-million-won units). -/
theorem budget_monotone_witness :
    (({ property_id := 11, score := 43, reasons := ["거래유형 일치", "예산 범위 일치"],
        property_row := { id := 11, deal_sale := true, price_sale_eok := .vInt 0, price_sale_che := .vInt 5 } } : MatchResult).score >
     ({ property_id := 11, score := 23, reasons := ["거래유형 일치"],
        property_row := { id := 11, deal_sale := true, price_sale_eok := .vInt 0, price_sale_che := .vInt 9 } } : MatchResult).score) := by
  have h := budget_monotone
    { deal_type := "매매", budget_10m := .vInt 5 }
    { id := 11, deal_sale := true, price_sale_eok := .vInt 0, price_sale_che := .vInt 5 }
    (.vInt 0) (.vInt 9)
    { property_id := 11, score := 43, reasons := ["거래유형 일치", "예산 범위 일치"],
      property_row := { id := 11, deal_sale := true, price_sale_eok := .vInt 0, price_sale_che := .vInt 5 } }
    { property_id := 11, score := 23, reasons := ["거래유형 일치"],
      property_row := { id := 11, deal_sale := true, price_sale_eok := .vInt 0, price_sale_che := .vInt 9 } }
    5 9 (by decide) (by decide) (by decide) (by decide) (by decide) (by decide)
    (by decide) (by decide)
  exact h

/-! ## C7: the pyeong-range rule -/

/-- The pyeong-range penalty in the code is the full distance to the nearer
bound capped at 12, not half of it as the claim states: with range 30~40
and a property pyeong of 44 (distance 4) the component subtracts 4, while
the claimed formula (`int(min(12, dist / 2))`, the same pattern as the
area rule) would subtract 2. -/
theorem pyeong_penalty_cex :
    (pyeongTerm (parse_range (.pair 30 40)) (some 44)).1 = -4 ∧
    ((-4 : Int) ≠ -(ratTrunc (min 12 (min |(44 : ℚ) - 30| |(44 : ℚ) - 40| / 2)))) := by
  constructor
  · norm_num [pyeongTerm, parse_range, ratTrunc, min_def]
  · norm_num [ratTrunc, min_def]

/-- Claim C7 as amended: the pyeong component of the score is +25 (with
reason "평형 범위 일치") when the pyeong is inside the customer's parsed
range, `-int(min(12, dist))` — the **full** distance to the nearer bound,
capped at 12 — when outside, and a flat +5 when the customer gave no
usable range or the pyeong is unknown. -/
theorem pyeong_rule (c : CustomerRec) (p : PropRec) (r : MatchResult)
    (h : matchOne c p = some r) :
    (r.score =
      (dealTerm (dealInter (parse_deal_types c.deal_type) (propDeals p))).1 +
      (areaTerm (parse_range c.preferred_area) p.area).1 +
      (match parse_range c.preferred_pyeong, p.pyeong with
       | some (lo, hi), some py =>
           if lo ≤ py ∧ py ≤ hi then 25
           else -(ratTrunc (min 12 (min |py - lo| |py - hi|)))
       | _, _ => 5) +
      (floorTerm (pyStrip c.floor_preference) (parse_floor p.floor)).1 +
      (kwTerm (pyStrip c.view_preference) (pyStrip c.location_preference) (hayOf p)).1 +
      condTerm (pyStrip p.condition) +
      (budgetTerm (to_int c.budget_10m 0) (to_int c.wolse_rent_10man 0)
        (dealInter (parse_deal_types c.deal_type) (propDeals p)) p).1) ∧
    (∀ lo hi py, parse_range c.preferred_pyeong = some (lo, hi) →
      p.pyeong = some py → lo ≤ py → py ≤ hi → "평형 범위 일치" ∈ r.reasons) := by
  constructor
  · rw [matchOne_some_score c p r h]
    have hterm : (pyeongTerm (parse_range c.preferred_pyeong) p.pyeong).1 =
        (match parse_range c.preferred_pyeong, p.pyeong with
         | some (lo, hi), some py =>
             if lo ≤ py ∧ py ≤ hi then (25 : Int)
             else -(ratTrunc (min 12 (min |py - lo| |py - hi|)))
         | _, _ => 5) := by
      rcases parse_range c.preferred_pyeong with _ | ⟨lo, hi⟩
      · rfl
      · rcases p.pyeong with _ | py
        · rfl
        · by_cases hin : lo ≤ py ∧ py ≤ hi
          · simp [pyeongTerm, hin]
          · simp [pyeongTerm, hin]
    rw [hterm]
  · intro lo hi py hr hp hlo hhi
    rw [matchOne_some_reasons c p r h]
    simp [pyeongTerm, hr, hp, hlo, hhi]

/-- Witness for C7 (amended) at a customer/property with no pyeong data:
the component takes the flat +5 fallback. -/
theorem pyeong_rule_witness :
    matchOne {} {} =
      some ({ property_id := 0, score := 10, reasons := [], property_row := {} } : MatchResult) ∧
    ({ property_id := 0, score := 10, reasons := [], property_row := {} } : MatchResult).score =
      (dealTerm (dealInter (parse_deal_types ({} : CustomerRec).deal_type)
        (propDeals {}))).1 +
      (areaTerm (parse_range ({} : CustomerRec).preferred_area)
        ({} : PropRec).area).1 +
      (match parse_range ({} : CustomerRec).preferred_pyeong,
          ({} : PropRec).pyeong with
       | some (lo, hi), some py =>
           if lo ≤ py ∧ py ≤ hi then 25
           else -(ratTrunc (min 12 (min |py - lo| |py - hi|)))
       | _, _ => 5) +
      (floorTerm (pyStrip ({} : CustomerRec).floor_preference)
        (parse_floor ({} : PropRec).floor)).1 +
      (kwTerm (pyStrip ({} : CustomerRec).view_preference)
        (pyStrip ({} : CustomerRec).location_preference) (hayOf {})).1 +
      condTerm (pyStrip ({} : PropRec).condition) +
      (budgetTerm (to_int ({} : CustomerRec).budget_10m 0)
        (to_int ({} : CustomerRec).wolse_rent_10man 0)
        (dealInter (parse_deal_types ({} : CustomerRec).deal_type)
          (propDeals {})) {}).1 := by
  refine ⟨by decide, ?_⟩
  exact (pyeong_rule {} {} _ (by decide)).1

/-! ## Reconciler lemmas: generic list and dict facts -/

theorem map_mem_id {α : Type} (l : List α) (f : α → α)
    (h : ∀ a ∈ l, f a = a) : l.map f = l := by
  induction l with
  | nil => rfl
  | cons x xs ih =>
      simp only [List.map_cons, h x (by simp), ih (fun a ha => h a (by simp [ha]))]

theorem keyMem_iff {K : Type} [DecidableEq K] (k : K) (ks : List K) :
    keyMem k ks = true ↔ k ∈ ks := by
  simp [keyMem, List.any_eq_true]

theorem tasks_any_key {ts : List TaskRow} {k : KeyT} :
    ts.any (fun r => decide (r.uniqueKey = some k)) = true ↔
      ∃ r ∈ ts, r.uniqueKey = some k := by
  simp [List.any_eq_true]

theorem dictInsert_entry_src {K V : Type} [DecidableEq K] (k : K) (v : V)
    (d : List (K × V)) (a : K) (b : V) (h : (a, b) ∈ dictInsert k v d) :
    (a = k ∧ b = v) ∨ (a, b) ∈ d := by
  induction d with
  | nil => simp [dictInsert] at h; exact Or.inl h
  | cons e rest ih =>
      obtain ⟨k', v'⟩ := e
      simp only [dictInsert] at h
      split at h
      · rcases List.mem_cons.mp h with h' | h'
        · exact Or.inl ⟨(Prod.ext_iff.mp h').1, (Prod.ext_iff.mp h').2⟩
        · exact Or.inr (List.mem_cons_of_mem _ h')
      · rcases List.mem_cons.mp h with h' | h'
        · exact Or.inr (h' ▸ List.mem_cons_self _ _)
        · rcases ih h' with h'' | h''
          · exact Or.inl h''
          · exact Or.inr (List.mem_cons_of_mem _ h'')

theorem dictInsert_self_mem {K V : Type} [DecidableEq K] (k : K) (v : V)
    (d : List (K × V)) : (k, v) ∈ dictInsert k v d := by
  induction d with
  | nil => simp [dictInsert]
  | cons e rest ih =>
      obtain ⟨k', v'⟩ := e
      simp only [dictInsert]
      split
      · exact List.mem_cons_self _ _
      · exact List.mem_cons_of_mem _ ih

theorem dictInsert_keep {K V : Type} [DecidableEq K] {k a : K} {v b : V}
    {d : List (K × V)} (h : (a, b) ∈ d) (hne : a ≠ k) :
    (a, b) ∈ dictInsert k v d := by
  induction d with
  | nil => simp at h
  | cons e rest ih =>
      obtain ⟨k', v'⟩ := e
      simp only [dictInsert]
      split
      · next heq =>
          rcases List.mem_cons.mp h with h' | h'
          · exact absurd (heq ▸ congrArg Prod.fst h') hne
          · exact List.mem_cons_of_mem _ h'
      · rcases List.mem_cons.mp h with h' | h'
        · exact h' ▸ List.mem_cons_self _ _
        · exact List.mem_cons_of_mem _ (ih h')

theorem dictInsert_keys_mem {K V : Type} [DecidableEq K] (k a : K) (v : V)
    (d : List (K × V)) :
    a ∈ (dictInsert k v d).map Prod.fst ↔ a = k ∨ a ∈ d.map Prod.fst := by
  induction d with
  | nil => simp [dictInsert]
  | cons e rest ih =>
      obtain ⟨k', v'⟩ := e
      simp only [dictInsert]
      split
      · next heq =>
          subst heq
          simp only [List.map_cons, List.mem_cons]
          tauto
      · simp only [List.map_cons, List.mem_cons, ih]
        tauto

theorem dictInsert_keys_nodup {K V : Type} [DecidableEq K] (k : K) (v : V)
    (d : List (K × V)) (h : (d.map Prod.fst).Nodup) :
    ((dictInsert k v d).map Prod.fst).Nodup := by
  induction d with
  | nil => simp [dictInsert]
  | cons e rest ih =>
      obtain ⟨k', v'⟩ := e
      simp only [List.map_cons, List.nodup_cons] at h
      simp only [dictInsert]
      split
      · next heq =>
          subst heq
          simp only [List.map_cons, List.nodup_cons]
          exact h
      · next hne =>
          simp only [List.map_cons, List.nodup_cons]
          refine ⟨?_, ih h.2⟩
          intro hmem
          rcases (dictInsert_keys_mem k k' v rest).mp hmem with h' | h'
          · exact hne h' 
          · exact h.1 h'

/-! ## Reconciler lemmas: a single upsert -/

theorem upsertD_props (k : KeyT) (t : DesiredTask) (st : Store) :
    (upsertD k t st).properties = st.properties ∧
    (upsertD k t st).photos = st.photos ∧
    (upsertD k t st).viewings = st.viewings := by
  unfold upsertD upsert_task_unique
  split <;> exact ⟨rfl, rfl, rfl⟩

theorem upsertD_nextId_ge (k : KeyT) (t : DesiredTask) (st : Store) :
    st.nextId ≤ (upsertD k t st).nextId := by
  unfold upsertD upsert_task_unique
  split
  · exact le_refl _
  · exact Nat.le_succ _

theorem upsertD_tasks_src (k : KeyT) (t : DesiredTask) (st : Store) :
    ∀ r' ∈ (upsertD k t st).tasks,
      (r' ∈ st.tasks ∧ r'.uniqueKey ≠ some k) ∨ r'.uniqueKey = some k := by
  unfold upsertD upsert_task_unique
  split
  · intro r' hr'
    obtain ⟨r, hr, rfl⟩ := List.mem_map.mp hr'
    by_cases hk : r.uniqueKey = some k
    · right
      rw [if_pos hk]
      exact hk
    · left
      rw [if_neg hk]
      exact ⟨hr, hk⟩
  · next hany =>
      intro r' hr'
      rcases List.mem_append.mp hr' with h | h
      · left
        refine ⟨h, fun hk => hany (tasks_any_key.mpr ⟨r', h, hk⟩)⟩
      · right
        simp only [List.mem_singleton] at h
        subst h
        rfl

theorem upsertD_tasks_keep (k : KeyT) (t : DesiredTask) (st : Store) :
    ∀ r ∈ st.tasks, r.uniqueKey ≠ some k → r ∈ (upsertD k t st).tasks := by
  unfold upsertD upsert_task_unique
  split
  · intro r hr hk
    exact List.mem_map.mpr ⟨r, hr, if_neg hk⟩
  · intro r hr _
    exact List.mem_append_left _ hr

theorem upsertD_id_prov (k : KeyT) (t : DesiredTask) (st : Store) :
    ∀ r' ∈ (upsertD k t st).tasks,
      (∃ r ∈ st.tasks, r.id = r'.id ∧ r.uniqueKey = r'.uniqueKey) ∨
        (st.nextId ≤ r'.id ∧ r'.uniqueKey = some k) := by
  unfold upsertD upsert_task_unique
  split
  · intro r' hr'
    obtain ⟨r, hr, rfl⟩ := List.mem_map.mp hr'
    by_cases hk : r.uniqueKey = some k
    · exact Or.inl ⟨r, hr, by rw [if_pos hk], by rw [if_pos hk]⟩
    · exact Or.inl ⟨r, hr, by rw [if_neg hk], by rw [if_neg hk]⟩
  · intro r' hr'
    rcases List.mem_append.mp hr' with h | h
    · exact Or.inl ⟨r', h, rfl, rfl⟩
    · simp only [List.mem_singleton] at h
      subst h
      exact Or.inr ⟨le_refl _, rfl⟩

theorem upsertD_establishes (k : KeyT) (t : DesiredTask) (st : Store) :
    rowHasDesired k t (upsertD k t st) := by
  constructor
  · unfold upsertD upsert_task_unique
    split
    · next hany =>
        obtain ⟨r, hr, hk⟩ := tasks_any_key.mp hany
        exact ⟨_, List.mem_map_of_mem _ hr, by rw [if_pos hk]; exact hk⟩
    · exact ⟨_, List.mem_append_right _ (List.mem_singleton_self _), rfl⟩
  · unfold upsertD upsert_task_unique
    split
    · next hany =>
        intro r' hr' hk'
        obtain ⟨r, hr, rfl⟩ := List.mem_map.mp hr'
        by_cases hk : r.uniqueKey = some k
        · rw [if_pos hk]
          rfl
        · rw [if_neg hk] at hk' ⊢
          exact absurd hk' hk
    · next hany =>
        intro r' hr' hk'
        rcases List.mem_append.mp hr' with h | h
        · exact absurd (tasks_any_key.mpr ⟨r', h, hk'⟩) hany
        · simp only [List.mem_singleton] at h
          subst h
          rfl

theorem upsertD_preserves (k : KeyT) (t : DesiredTask) (j : KeyT)
    (s : DesiredTask) (st : Store) (hjk : j ≠ k)
    (h : rowHasDesired j s st) : rowHasDesired j s (upsertD k t st) := by
  obtain ⟨⟨r0, hr0, hk0⟩, hall⟩ := h
  have hne : r0.uniqueKey ≠ some k := by
    rw [hk0]
    intro hc
    exact hjk (Option.some.inj hc)
  refine ⟨⟨r0, upsertD_tasks_keep k t st r0 hr0 hne, hk0⟩, ?_⟩
  intro r' hr' hk'
  rcases upsertD_tasks_src k t st r' hr' with ⟨hmem, _⟩ | hkey
  · exact hall r' hmem hk'
  · exact absurd (Option.some.inj (hk'.symm.trans hkey)) hjk

/-! ## Reconciler lemmas: well-formedness bookkeeping -/

theorem keysOk_of_map_keyinv (ts : List TaskRow) (f : TaskRow → TaskRow)
    (hf : ∀ r, (f r).uniqueKey = r.uniqueKey) (h : keysOk ts = true) :
    keysOk (ts.map f) = true := by
  induction ts with
  | nil => rfl
  | cons r rest ih =>
      simp only [keysOk, Bool.and_eq_true] at h
      simp only [List.map_cons, keysOk, Bool.and_eq_true]
      refine ⟨?_, ih h.2⟩
      rw [hf r]
      rcases hk : r.uniqueKey with _ | k
      · rfl
      · rw [hk] at h
        have h1 := h.1
        simp only [List.all_eq_true, decide_eq_true_eq, ne_eq] at h1 ⊢
        intro r2 hr2
        obtain ⟨r0, hr0, rfl⟩ := List.mem_map.mp hr2
        rw [hf r0]
        exact h1 r0 hr0

theorem keysOk_append_new (ts : List TaskRow) (newRow : TaskRow) (k : KeyT)
    (hnew : newRow.uniqueKey = some k)
    (h : keysOk ts = true) (hfresh : ∀ r ∈ ts, r.uniqueKey ≠ some k) :
    keysOk (ts ++ [newRow]) = true := by
  induction ts with
  | nil =>
      simp only [List.nil_append, keysOk, hnew, List.all_nil, Bool.and_true]
  | cons r rest ih =>
      simp only [keysOk, Bool.and_eq_true] at h
      simp only [List.cons_append, keysOk, Bool.and_eq_true]
      refine ⟨?_, ih h.2 (fun r2 hr2 => hfresh r2 (List.mem_cons_of_mem _ hr2))⟩
      rcases hk : r.uniqueKey with _ | k0
      · rfl
      · rw [hk] at h
        have h1 := h.1
        have hk0ne : k0 ≠ k := by
          intro hc
          subst hc
          exact hfresh r (List.mem_cons_self _ _) hk
        simp only [List.all_eq_true, decide_eq_true_eq, ne_eq] at h1 ⊢
        intro r2 hr2
        rcases List.mem_append.mp hr2 with h' | h'
        · exact h1 r2 h'
        · simp only [List.mem_singleton] at h'
          subst h'
          rw [hnew]
          intro hc
          exact hk0ne (Option.some.inj hc).symm

theorem all_filter_of_all (ts : List TaskRow) (p : TaskRow → Bool)
    (q : TaskRow → Bool) (h : ts.all q = true) : (ts.filter p).all q = true := by
  simp only [List.all_eq_true] at h ⊢
  intro r hr
  exact h r (List.mem_of_mem_filter hr)

theorem keysOk_filter (ts : List TaskRow) (p : TaskRow → Bool)
    (h : keysOk ts = true) : keysOk (ts.filter p) = true := by
  induction ts with
  | nil => rfl
  | cons r rest ih =>
      simp only [keysOk, Bool.and_eq_true] at h
      by_cases hp : p r = true
      · rw [List.filter_cons_of_pos hp]
        simp only [keysOk, Bool.and_eq_true]
        refine ⟨?_, ih h.2⟩
        rcases hk : r.uniqueKey with _ | k0
        · rfl
        · rw [hk] at h
          exact all_filter_of_all _ _ _ h.1
      · rw [List.filter_cons_of_neg hp]
        exact ih h.2

theorem idsOk_mem_lt (n : Nat) (ts : List TaskRow) (h : idsOk n ts = true) :
    ∀ r ∈ ts, r.id < n := by
  induction ts with
  | nil => intro r hr; simp at hr
  | cons r0 rest ih =>
      simp only [idsOk, Bool.and_eq_true, decide_eq_true_eq] at h
      intro r hr
      rcases List.mem_cons.mp hr with rfl | hr'
      · exact h.1.1
      · exact ih h.2 r hr'

theorem idsOk_mem_unique (n : Nat) (ts : List TaskRow) (h : idsOk n ts = true) :
    ∀ r1 ∈ ts, ∀ r2 ∈ ts, r1.id = r2.id → r1 = r2 := by
  induction ts with
  | nil => intro r1 hr1; simp at hr1
  | cons r0 rest ih =>
      simp only [idsOk, Bool.and_eq_true, decide_eq_true_eq,
        List.all_eq_true, ne_eq] at h
      intro r1 hr1 r2 hr2 heq
      rcases List.mem_cons.mp hr1 with rfl | hr1' <;>
        rcases List.mem_cons.mp hr2 with rfl | hr2'
      · rfl
      · exact absurd heq.symm (h.1.2 r2 hr2')
      · exact absurd heq (h.1.2 r1 hr1')
      · exact ih h.2 r1 hr1' r2 hr2' heq

theorem idsOk_mono (n m : Nat) (ts : List TaskRow) (hnm : n ≤ m)
    (h : idsOk n ts = true) : idsOk m ts = true := by
  induction ts with
  | nil => rfl
  | cons r rest ih =>
      simp only [idsOk, Bool.and_eq_true, decide_eq_true_eq] at h ⊢
      exact ⟨⟨lt_of_lt_of_le h.1.1 hnm, h.1.2⟩, ih h.2⟩

theorem idsOk_of_map_idinv (n : Nat) (ts : List TaskRow) (f : TaskRow → TaskRow)
    (hf : ∀ r, (f r).id = r.id) (h : idsOk n ts = true) :
    idsOk n (ts.map f) = true := by
  induction ts with
  | nil => rfl
  | cons r rest ih =>
      simp only [idsOk, Bool.and_eq_true, decide_eq_true_eq] at h
      simp only [List.map_cons, idsOk, Bool.and_eq_true, decide_eq_true_eq]
      refine ⟨⟨by rw [hf r]; exact h.1.1, ?_⟩, ih h.2⟩
      have h1 := h.1.2
      simp only [List.all_eq_true, decide_eq_true_eq, ne_eq] at h1 ⊢
      intro r2 hr2
      obtain ⟨r0, hr0, rfl⟩ := List.mem_map.mp hr2
      rw [hf r0, hf r]
      exact h1 r0 hr0

theorem idsOk_append_new (n : Nat) (ts : List TaskRow) (newRow : TaskRow)
    (hnew : newRow.id = n) (h : idsOk n ts = true) :
    idsOk (n + 1) (ts ++ [newRow]) = true := by
  induction ts with
  | nil =>
      simp only [List.nil_append, idsOk, List.all_nil, Bool.and_true,
        decide_eq_true_eq, hnew]
      omega
  | cons r rest ih =>
      simp only [idsOk] at h
      rw [Bool.and_eq_true, Bool.and_eq_true] at h
      obtain ⟨⟨hlt, hall⟩, hrest⟩ := h
      simp only [List.cons_append, idsOk]
      rw [Bool.and_eq_true, Bool.and_eq_true]
      refine ⟨⟨?_, ?_⟩, ih hrest⟩
      · simp only [decide_eq_true_eq] at hlt ⊢
        omega
      · simp only [List.all_eq_true] at hall ⊢
        intro r2 hr2
        rcases List.mem_append.mp hr2 with h' | h'
        · exact hall r2 h'
        · simp only [List.mem_singleton] at h'
          subst h'
          simp only [decide_eq_true_eq] at hlt ⊢
          rw [hnew]
          omega

/-! ## Reconciler lemmas: the upsert loop -/

theorem upsertD_WF (k : KeyT) (t : DesiredTask) (st : Store)
    (h : storeWF st = true) : storeWF (upsertD k t st) = true := by
  unfold storeWF at h
  rw [Bool.and_eq_true] at h
  obtain ⟨hK, hI⟩ := h
  unfold upsertD upsert_task_unique
  by_cases hany : (st.tasks.any fun r => decide (r.uniqueKey = some k)) = true
  · rw [if_pos hany]
    unfold storeWF
    rw [Bool.and_eq_true]
    constructor
    · refine keysOk_of_map_keyinv _ _ ?_ hK
      intro r
      by_cases hk : r.uniqueKey = some k
      · rw [if_pos hk]
      · rw [if_neg hk]
    · refine idsOk_of_map_idinv _ _ _ ?_ hI
      intro r
      by_cases hk : r.uniqueKey = some k
      · rw [if_pos hk]
      · rw [if_neg hk]
  · rw [if_neg hany]
    unfold storeWF
    rw [Bool.and_eq_true]
    constructor
    · refine keysOk_append_new _ _ k rfl hK ?_
      intro r hr hk
      exact hany (tasks_any_key.mpr ⟨r, hr, hk⟩)
    · exact idsOk_append_new _ _ _ rfl hI

theorem upsertAllP_props (L : List (KeyT × DesiredTask)) :
    ∀ st : Store, (upsertAllP L st).properties = st.properties ∧
      (upsertAllP L st).photos = st.photos ∧
      (upsertAllP L st).viewings = st.viewings := by
  induction L with
  | nil => intro st; exact ⟨rfl, rfl, rfl⟩
  | cons e rest ih =>
      obtain ⟨k, t⟩ := e
      intro st
      obtain ⟨h1, h2, h3⟩ := ih (upsertD k t st)
      obtain ⟨g1, g2, g3⟩ := upsertD_props k t st
      exact ⟨h1.trans g1, h2.trans g2, h3.trans g3⟩

theorem upsertAllP_nextId_ge (L : List (KeyT × DesiredTask)) :
    ∀ st : Store, st.nextId ≤ (upsertAllP L st).nextId := by
  induction L with
  | nil => intro st; exact le_refl _
  | cons e rest ih =>
      obtain ⟨k, t⟩ := e
      intro st
      exact le_trans (upsertD_nextId_ge k t st) (ih (upsertD k t st))

theorem upsertAllP_src (L : List (KeyT × DesiredTask)) :
    ∀ st : Store, ∀ r' ∈ (upsertAllP L st).tasks,
      (∃ k ∈ L.map Prod.fst, r'.uniqueKey = some k) ∨ r' ∈ st.tasks := by
  induction L with
  | nil => intro st r' h; exact Or.inr h
  | cons e rest ih =>
      obtain ⟨k, t⟩ := e
      intro st r' h
      rcases ih (upsertD k t st) r' h with ⟨k', hk', hkey⟩ | hmem
      · exact Or.inl ⟨k', by simp only [List.map_cons, List.mem_cons]; exact Or.inr hk', hkey⟩
      · rcases upsertD_tasks_src k t st r' hmem with ⟨hm, _⟩ | hkey
        · exact Or.inr hm
        · exact Or.inl ⟨k, by simp, hkey⟩

theorem upsertAllP_keep (L : List (KeyT × DesiredTask)) :
    ∀ st : Store, ∀ r ∈ st.tasks,
      (∀ k ∈ L.map Prod.fst, r.uniqueKey ≠ some k) →
      r ∈ (upsertAllP L st).tasks := by
  induction L with
  | nil => intro st r h _; exact h
  | cons e rest ih =>
      obtain ⟨k, t⟩ := e
      intro st r hr hfr
      refine ih (upsertD k t st) r ?_ ?_
      · exact upsertD_tasks_keep k t st r hr (hfr k (by simp))
      · intro k' hk'
        exact hfr k' (by simp only [List.map_cons, List.mem_cons]; exact Or.inr hk')

theorem upsertAllP_id_prov (L : List (KeyT × DesiredTask)) :
    ∀ st : Store, ∀ r' ∈ (upsertAllP L st).tasks,
      (∃ r ∈ st.tasks, r.id = r'.id ∧ r.uniqueKey = r'.uniqueKey) ∨
        st.nextId ≤ r'.id := by
  induction L with
  | nil => intro st r' h; exact Or.inl ⟨r', h, rfl, rfl⟩
  | cons e rest ih =>
      obtain ⟨k, t⟩ := e
      intro st r' h
      rcases ih (upsertD k t st) r' h with ⟨rm, hrm, hid, hkey⟩ | hge
      · rcases upsertD_id_prov k t st rm hrm with ⟨r0, hr0, hid0, hkey0⟩ | ⟨hge0, _⟩
        · exact Or.inl ⟨r0, hr0, hid0.trans hid, hkey0.trans hkey⟩
        · exact Or.inr (hid ▸ hge0)
      · exact Or.inr (le_trans (upsertD_nextId_ge k t st) hge)

theorem upsertAllP_preserves (L : List (KeyT × DesiredTask)) :
    ∀ (st : Store) (j : KeyT) (s : DesiredTask), j ∉ L.map Prod.fst →
      rowHasDesired j s st → rowHasDesired j s (upsertAllP L st) := by
  induction L with
  | nil => intro st j s _ h; exact h
  | cons e rest ih =>
      obtain ⟨k, t⟩ := e
      intro st j s hj h
      simp only [List.map_cons, List.mem_cons, not_or] at hj
      exact ih (upsertD k t st) j s hj.2 (upsertD_preserves k t j s st hj.1 h)

theorem upsertAllP_rowHas (L : List (KeyT × DesiredTask)) :
    ∀ st : Store, (L.map Prod.fst).Nodup →
      ∀ (k : KeyT) (t : DesiredTask), (k, t) ∈ L →
      rowHasDesired k t (upsertAllP L st) := by
  induction L with
  | nil => intro st _ k t h; simp at h
  | cons e rest ih =>
      obtain ⟨k0, t0⟩ := e
      intro st hnd k t h
      simp only [List.map_cons, List.nodup_cons] at hnd
      rcases List.mem_cons.mp h with heq | hmem
      · injection heq with h1 h2
        subst h1
        subst h2
        exact upsertAllP_preserves rest (upsertD k t st) k t hnd.1
          (upsertD_establishes k t st)
      · exact ih (upsertD k0 t0 st) hnd.2 k t hmem

theorem upsertAllP_WF (L : List (KeyT × DesiredTask)) :
    ∀ st : Store, storeWF st = true → storeWF (upsertAllP L st) = true := by
  induction L with
  | nil => intro st h; exact h
  | cons e rest ih =>
      obtain ⟨k, t⟩ := e
      intro st h
      exact ih (upsertD k t st) (upsertD_WF k t st h)

theorem upsertDesired_ok (L : List (KeyT × DesiredTask)) :
    ∀ st : Store,
      upsertDesired (fun _ => false) L st = .ok (upsertAllP L st) := by
  induction L with
  | nil => intro st; rfl
  | cons e rest ih =>
      obtain ⟨k, t⟩ := e
      intro st
      show (if (fun _ : KeyT => false) k then Except.error st
        else upsertDesired (fun _ => false) rest
          (upsert_task_unique k t.kind (some t.entity_type) t.entity_id
            t.title t.due_at "OPEN" t.note st)) = _
      rw [if_neg (by simp)]
      exact ih (upsertD k t st)

theorem upsertD_id (k : KeyT) (t : DesiredTask) (st : Store)
    (h : rowHasDesired k t st) : upsertD k t st = st := by
  obtain ⟨hex, hall⟩ := h
  unfold upsertD upsert_task_unique
  rw [if_pos (tasks_any_key.mpr hex)]
  have hmap : (st.tasks.map (fun r =>
      if r.uniqueKey = some k then
        { r with kind := t.kind, entityType := some t.entity_type,
                 entityId := t.entity_id, title := t.title, dueAt := t.due_at,
                 status := "OPEN", note := t.note }
      else r)) = st.tasks := by
    apply map_mem_id
    intro r hr
    by_cases hk : r.uniqueKey = some k
    · rw [if_pos hk]
      exact (hall r hr hk).symm
    · rw [if_neg hk]
  rw [hmap]

theorem upsertAllP_id (L : List (KeyT × DesiredTask)) :
    ∀ st : Store, (∀ (k : KeyT) (t : DesiredTask), (k, t) ∈ L →
      rowHasDesired k t st) → upsertAllP L st = st := by
  induction L with
  | nil => intro st _; rfl
  | cons e rest ih =>
      obtain ⟨k0, t0⟩ := e
      intro st h
      show upsertAllP rest (upsertD k0 t0 st) = st
      rw [upsertD_id k0 t0 st (h k0 t0 (List.mem_cons_self _ _))]
      exact ih st (fun k t hm => h k t (List.mem_cons_of_mem _ hm))

/-! ## Reconciler lemmas: the resolve loop -/

theorem map_congr_mem {α β : Type} (l : List α) (f g : α → β)
    (h : ∀ a ∈ l, f a = g a) : l.map f = l.map g := by
  induction l with
  | nil => rfl
  | cons x xs ih =>
      simp only [List.map_cons, h x (by simp),
        ih (fun a ha => h a (by simp [ha]))]

theorem doneIf_nil (r : TaskRow) : doneIf [] r = r := by
  simp [doneIf]

theorem doneIf_id (ids : List Nat) (r : TaskRow) : (doneIf ids r).id = r.id := by
  unfold doneIf
  split <;> rfl

theorem doneIf_key (ids : List Nat) (r : TaskRow) :
    (doneIf ids r).uniqueKey = r.uniqueKey := by
  unfold doneIf
  split <;> rfl

theorem doneIf_kind (ids : List Nat) (r : TaskRow) :
    (doneIf ids r).kind = r.kind := by
  unfold doneIf
  split <;> rfl

theorem doneIf_comp (i : Nat) (T : List Nat) (r : TaskRow) :
    doneIf T (if r.id = i then { r with status := "DONE" } else r) =
      doneIf (i :: T) r := by
  by_cases hi : r.id = i
  · rw [if_pos hi]
    unfold doneIf
    have hmem : r.id ∈ i :: T := by rw [hi]; exact List.mem_cons_self _ _
    rw [if_pos hmem]
    split <;> rfl
  · rw [if_neg hi]
    unfold doneIf
    by_cases hT : r.id ∈ T
    · rw [if_pos hT, if_pos (List.mem_cons_of_mem _ hT)]
    · rw [if_neg hT, if_neg (by simp [hi, hT])]

theorem resolveObsolete_eq (failSet : Nat → Bool) (dkeys : List KeyT) :
    ∀ (entries : List (KeyT × TaskRow)) (st : Store),
      resolveObsolete failSet dkeys entries st =
        { st with tasks :=
            st.tasks.map (doneIf (targetIds failSet dkeys entries)) } := by
  intro entries
  induction entries with
  | nil =>
      intro st
      show st = _
      rw [show targetIds failSet dkeys [] = [] from rfl,
        map_mem_id _ _ (fun a _ => doneIf_nil a)]
  | cons e rest ih =>
      obtain ⟨k, row⟩ := e
      intro st
      show (if keyTruthy (some k) && !keyMem k dkeys && decide (row.status = "OPEN") then
              if failSet row.id then resolveObsolete failSet dkeys rest st
              else resolveObsolete failSet dkeys rest (set_task_status row.id "DONE" st)
            else resolveObsolete failSet dkeys rest st) = _
      by_cases hc : (keyTruthy (some k) && !keyMem k dkeys &&
          decide (row.status = "OPEN")) = true
      · rw [if_pos hc]
        by_cases hf : failSet row.id = true
        · rw [if_pos hf, ih st,
            show targetIds failSet dkeys ((k, row) :: rest) =
              targetIds failSet dkeys rest from by simp [targetIds, hc, hf]]
        · rw [if_neg hf, ih (set_task_status row.id "DONE" st),
            show targetIds failSet dkeys ((k, row) :: rest) =
              row.id :: targetIds failSet dkeys rest from by
                simp [targetIds, hc, hf]]
          unfold set_task_status
          have htasks : ((st.tasks.map (fun r =>
              if r.id = row.id then { r with status := "DONE" } else r)).map
                (doneIf (targetIds failSet dkeys rest))) =
              st.tasks.map (doneIf (row.id :: targetIds failSet dkeys rest)) := by
            rw [List.map_map]
            exact map_congr_mem _ _ _ (fun a _ => doneIf_comp row.id _ a)
          rw [htasks]
      · rw [if_neg hc, ih st,
          show targetIds failSet dkeys ((k, row) :: rest) =
            targetIds failSet dkeys rest from by simp [targetIds, hc]]

theorem targetIds_src (failSet : Nat → Bool) (dkeys : List KeyT) :
    ∀ (entries : List (KeyT × TaskRow)) (i : Nat),
      i ∈ targetIds failSet dkeys entries →
      ∃ k row, (k, row) ∈ entries ∧ row.id = i ∧ keyTruthy (some k) = true ∧
        keyMem k dkeys = false ∧ row.status = "OPEN" ∧ failSet row.id = false := by
  intro entries
  induction entries with
  | nil => intro i h; simp [targetIds] at h
  | cons e rest ih =>
      obtain ⟨k, row⟩ := e
      intro i h
      unfold targetIds at h
      by_cases hc : (keyTruthy (some k) && !keyMem k dkeys &&
          decide (row.status = "OPEN")) = true
      · rw [if_pos hc] at h
        rw [Bool.and_eq_true, Bool.and_eq_true] at hc
        obtain ⟨⟨h1, h2⟩, h3⟩ := hc
        by_cases hf : failSet row.id = true
        · rw [if_pos hf] at h
          obtain ⟨k', row', hm, rest'⟩ := ih i h
          exact ⟨k', row', List.mem_cons_of_mem _ hm, rest'⟩
        · rw [if_neg hf] at h
          rcases List.mem_cons.mp h with rfl | h'
          · exact ⟨k, row, List.mem_cons_self _ _, rfl, h1,
              by simpa using h2, by simpa using h3,
              by simpa using hf⟩
          · obtain ⟨k', row', hm, rest'⟩ := ih i h'
            exact ⟨k', row', List.mem_cons_of_mem _ hm, rest'⟩
      · rw [if_neg hc] at h
        obtain ⟨k', row', hm, rest'⟩ := ih i h
        exact ⟨k', row', List.mem_cons_of_mem _ hm, rest'⟩

theorem targetIds_complete (failSet : Nat → Bool) (dkeys : List KeyT) :
    ∀ (entries : List (KeyT × TaskRow)) (k : KeyT) (row : TaskRow),
      (k, row) ∈ entries → keyTruthy (some k) = true → keyMem k dkeys = false →
      row.status = "OPEN" → failSet row.id = false →
      row.id ∈ targetIds failSet dkeys entries := by
  intro entries
  induction entries with
  | nil => intro k row hm; simp at hm
  | cons e rest ih =>
      obtain ⟨k0, row0⟩ := e
      intro k row hm h1 h2 h3 h4
      unfold targetIds
      rcases List.mem_cons.mp hm with heq | hm'
      · injection heq with hk hr
        subst hk
        subst hr
        rw [if_pos (by simp [h1, h2, h3]), if_neg (by simp [h4])]
        exact List.mem_cons_self _ _
      · have hrec := ih k row hm' h1 h2 h3 h4
        by_cases hc : (keyTruthy (some k0) && !keyMem k0 dkeys &&
            decide (row0.status = "OPEN")) = true
        · rw [if_pos hc]
          by_cases hf : failSet row0.id = true
          · rw [if_pos hf]
            exact hrec
          · rw [if_neg hf]
            exact List.mem_cons_of_mem _ hrec
        · rw [if_neg hc]
          exact hrec

/-! ## Reconciler lemmas: the existing-by-key dict -/

theorem ebk_src_aux (P : KeyT → TaskRow → Prop) :
    ∀ (rows : List TaskRow) (acc : List (KeyT × TaskRow)),
      (∀ k row, (k, row) ∈ acc → P k row) →
      (∀ row ∈ rows, ∀ k, row.uniqueKey = some k →
        keyTruthy (some k) = true → P k row) →
      ∀ k row,
        (k, row) ∈ rows.foldl (fun acc r =>
          match r.uniqueKey with
          | some k => if keyTruthy (some k) then dictInsert k r acc else acc
          | none => acc) acc →
        P k row := by
  intro rows
  induction rows with
  | nil => intro acc hacc _ k row h; exact hacc k row h
  | cons r rest ih =>
      intro acc hacc hrows k row h
      refine ih _ ?_ (fun row' hm => hrows row' (List.mem_cons_of_mem _ hm)) k row h
      intro k' row' hm
      simp only [] at hm
      rcases hk : r.uniqueKey with _ | k0
      · rw [hk] at hm
        exact hacc k' row' hm
      · rw [hk] at hm
        simp only [] at hm
        by_cases htr : keyTruthy (some k0) = true
        · rw [if_pos htr] at hm
          rcases dictInsert_entry_src k0 r acc k' row' hm with ⟨rfl, rfl⟩ | hm'
          · exact hrows row' (List.mem_cons_self _ _) k' hk htr
          · exact hacc k' row' hm'
        · rw [if_neg htr] at hm
          exact hacc k' row' hm

theorem existingByKey_src (rows : List TaskRow) (k : KeyT) (row : TaskRow)
    (h : (k, row) ∈ existingByKey rows) :
    row ∈ rows ∧ row.uniqueKey = some k ∧ keyTruthy (some k) = true := by
  refine ebk_src_aux
    (fun k row => row ∈ rows ∧ row.uniqueKey = some k ∧ keyTruthy (some k) = true)
    rows [] (by intro k' row' hm; simp at hm) ?_ k row h
  intro row' hm k' hk htr
  exact ⟨hm, hk, htr⟩

theorem ebk_preserve :
    ∀ (rows : List TaskRow) (acc : List (KeyT × TaskRow)) (a : KeyT) (b : TaskRow),
      (a, b) ∈ acc → (∀ r ∈ rows, r.uniqueKey ≠ some a) →
      (a, b) ∈ rows.foldl (fun acc r =>
        match r.uniqueKey with
        | some k => if keyTruthy (some k) then dictInsert k r acc else acc
        | none => acc) acc := by
  intro rows
  induction rows with
  | nil => intro acc a b h _; exact h
  | cons r rest ih =>
      intro acc a b h hfr
      refine ih _ a b ?_ (fun r2 hr2 => hfr r2 (List.mem_cons_of_mem _ hr2))
      show (a, b) ∈ (match r.uniqueKey with
        | some k => if keyTruthy (some k) then dictInsert k r acc else acc
        | none => acc)
      rcases hk : r.uniqueKey with _ | k0
      · exact h
      · simp only []
        by_cases htr : keyTruthy (some k0) = true
        · rw [if_pos htr]
          refine dictInsert_keep h ?_
          intro hc
          subst hc
          exact hfr r (List.mem_cons_self _ _) hk
        · rw [if_neg htr]
          exact h

theorem ebk_complete_aux :
    ∀ (rows : List TaskRow) (acc : List (KeyT × TaskRow)),
      keysOk rows = true →
      ∀ row ∈ rows, ∀ k, row.uniqueKey = some k → keyTruthy (some k) = true →
      (k, row) ∈ rows.foldl (fun acc r =>
        match r.uniqueKey with
        | some k => if keyTruthy (some k) then dictInsert k r acc else acc
        | none => acc) acc := by
  intro rows
  induction rows with
  | nil => intro acc _ row hm; simp at hm
  | cons r rest ih =>
      intro acc hko row hm k hkey htr
      simp only [keysOk, Bool.and_eq_true] at hko
      rcases List.mem_cons.mp hm with rfl | hm'
      · have hfr : ∀ r2 ∈ rest, r2.uniqueKey ≠ some k := by
          have h1 := hko.1
          rw [hkey] at h1
          simp only [List.all_eq_true, decide_eq_true_eq, ne_eq] at h1
          exact h1
        refine ebk_preserve rest _ k row ?_ hfr
        show (k, row) ∈ (match row.uniqueKey with
          | some k0 => if keyTruthy (some k0) then dictInsert k0 row acc else acc
          | none => acc)
        rw [hkey]
        simp only []
        rw [if_pos htr]
        exact dictInsert_self_mem k row acc
      · exact ih _ hko.2 row hm' k hkey htr

theorem existingByKey_complete (rows : List TaskRow) (hko : keysOk rows = true)
    (row : TaskRow) (hm : row ∈ rows) (k : KeyT)
    (hkey : row.uniqueKey = some k) (htr : keyTruthy (some k) = true) :
    (k, row) ∈ existingByKey rows :=
  ebk_complete_aux rows [] hko row hm k hkey htr

/-! ## Reconciler lemmas: desired keys are distinct -/

theorem keys_nodup_ite (c : Prop) [Decidable c]
    (x y : List (KeyT × DesiredTask)) (hx : (x.map Prod.fst).Nodup)
    (hy : (y.map Prod.fst).Nodup) :
    (((if c then x else y).map Prod.fst)).Nodup := by
  split
  · exact hx
  · exact hy

theorem propertyStep_keys_nodup (pc : List (Int × Nat))
    (acc : List (KeyT × DesiredTask)) (p : PropRec)
    (h : (acc.map Prod.fst).Nodup) :
    ((propertyStep pc acc p).map Prod.fst).Nodup := by
  simp only [propertyStep]
  apply keys_nodup_ite
  · exact h
  · apply keys_nodup_ite
    · apply dictInsert_keys_nodup
      apply keys_nodup_ite
      · exact h
      · exact dictInsert_keys_nodup _ _ _ h
    · apply keys_nodup_ite
      · exact h
      · exact dictInsert_keys_nodup _ _ _ h

theorem viewingStep_keys_nodup (now : Int) (acc : List (KeyT × DesiredTask))
    (v : ViewingRec) (h : (acc.map Prod.fst).Nodup) :
    ((viewingStep now acc v).map Prod.fst).Nodup := by
  simp only [viewingStep]
  rcases hs : parse_dt v.start with _ | sdt <;> simp only [hs] <;>
    apply keys_nodup_ite <;>
    first
      | exact h
      | (apply dictInsert_keys_nodup
         first
           | exact h
           | (apply keys_nodup_ite <;>
               first
                 | exact h
                 | (apply keys_nodup_ite <;>
                     first
                       | exact h
                       | exact dictInsert_keys_nodup _ _ _ h
                       | (apply keys_nodup_ite <;>
                           first
                             | exact h
                             | exact dictInsert_keys_nodup _ _ _ h))))
      | (apply keys_nodup_ite <;>
          first
            | exact h
            | (apply keys_nodup_ite <;>
                first
                  | exact h
                  | exact dictInsert_keys_nodup _ _ _ h
                  | (apply keys_nodup_ite <;>
                      first
                        | exact h
                        | exact dictInsert_keys_nodup _ _ _ h)))

theorem foldl_propertyStep_nodup (pc : List (Int × Nat)) :
    ∀ (ps : List PropRec) (acc : List (KeyT × DesiredTask)),
      (acc.map Prod.fst).Nodup →
      (((ps.foldl (propertyStep pc) acc).map Prod.fst)).Nodup := by
  intro ps
  induction ps with
  | nil => intro acc h; exact h
  | cons p rest ih =>
      intro acc h
      exact ih _ (propertyStep_keys_nodup pc acc p h)

theorem foldl_viewingStep_nodup (now : Int) :
    ∀ (vs : List ViewingRec) (acc : List (KeyT × DesiredTask)),
      (acc.map Prod.fst).Nodup →
      (((vs.foldl (viewingStep now) acc).map Prod.fst)).Nodup := by
  intro vs
  induction vs with
  | nil => intro acc h; exact h
  | cons v rest ih =>
      intro acc h
      exact ih _ (viewingStep_keys_nodup now acc v h)

theorem compute_keys_nodup (properties : List PropRec) (photos : List PhotoRec)
    (viewings : List ViewingRec) (now : Int) :
    ((compute_desired_auto_tasks properties photos viewings now).map
      Prod.fst).Nodup := by
  unfold compute_desired_auto_tasks
  exact foldl_viewingStep_nodup now viewings _
    (foldl_propertyStep_nodup _ properties [] (by simp))

/-! ## Reconciler: characterizing one pass -/

theorem reconcileF_eq (failSet : Nat → Bool) (now : Int) (st : Store) :
    reconcile_auto_tasks (fun _ => false) failSet now st =
      (.ok (list_auto_tasks false (pass1F failSet now st)).length,
        pass1F failSet now st) := by
  unfold reconcile_auto_tasks pass1F desiredOf
  simp only [upsertDesired_ok]

theorem pass1F_eq (failSet : Nat → Bool) (now : Int) (st : Store) :
    pass1F failSet now st =
      { upsertAllP (desiredOf now st) st with
        tasks := (upsertAllP (desiredOf now st) st).tasks.map
          (doneIf (targetIds failSet ((desiredOf now st).map Prod.fst)
            (existingByKey (list_auto_tasks true st)))) } := by
  unfold pass1F
  exact resolveObsolete_eq _ _ _ _

theorem pass1F_props (failSet : Nat → Bool) (now : Int) (st : Store) :
    (pass1F failSet now st).properties = st.properties ∧
    (pass1F failSet now st).photos = st.photos ∧
    (pass1F failSet now st).viewings = st.viewings := by
  rw [pass1F_eq]
  obtain ⟨h1, h2, h3⟩ := upsertAllP_props (desiredOf now st) st
  exact ⟨h1, h2, h3⟩

theorem desiredOf_pass1F (failSet : Nat → Bool) (now : Int) (st : Store) :
    desiredOf now (pass1F failSet now st) = desiredOf now st := by
  obtain ⟨h1, h2, h3⟩ := pass1F_props failSet now st
  unfold desiredOf list_properties list_photos_all list_viewings
  rw [h1, h2, h3]

theorem desiredOf_keys_nodup (now : Int) (st : Store) :
    ((desiredOf now st).map Prod.fst).Nodup := by
  unfold desiredOf
  exact compute_keys_nodup _ _ _ _

theorem pass1F_protected (failSet : Nat → Bool) (now : Int) (st : Store)
    (hWF : storeWF st = true) :
    ∀ r ∈ (upsertAllP (desiredOf now st) st).tasks,
      (∃ k, r.uniqueKey = some k ∧ k ∈ (desiredOf now st).map Prod.fst) →
      r.id ∉ targetIds failSet ((desiredOf now st).map Prod.fst)
        (existingByKey (list_auto_tasks true st)) := by
  unfold storeWF at hWF
  rw [Bool.and_eq_true] at hWF
  rintro r hr ⟨k, hk, hkd⟩ hmem
  obtain ⟨k0, row0, hE, hid0, _, hkm0, _, _⟩ := targetIds_src _ _ _ _ hmem
  obtain ⟨hrow0, hkey0, _⟩ := existingByKey_src _ _ _ hE
  have hrow0' : row0 ∈ st.tasks := List.mem_of_mem_filter hrow0
  rcases upsertAllP_id_prov (desiredOf now st) st r hr with
    ⟨rO, hrO, hidO, hkeyO⟩ | hge
  · have heq : rO = row0 :=
      idsOk_mem_unique _ _ hWF.2 rO hrO row0 hrow0' (by rw [hidO, ← hid0])
    have hkk : some k0 = some k := by
      rw [← hkey0, ← heq, hkeyO, hk]
    have : k0 = k := Option.some.inj hkk
    subst this
    rw [(keyMem_iff k0 _).mpr hkd] at hkm0
    exact absurd hkm0 (by decide)
  · have hlt := idsOk_mem_lt _ _ hWF.2 row0 hrow0'
    omega

theorem pass1F_rowHas (failSet : Nat → Bool) (now : Int) (st : Store)
    (hWF : storeWF st = true) :
    ∀ (k : KeyT) (t : DesiredTask), (k, t) ∈ desiredOf now st →
      rowHasDesired k t (pass1F failSet now st) := by
  intro k t hkt
  have hkd : k ∈ (desiredOf now st).map Prod.fst :=
    List.mem_map_of_mem Prod.fst hkt
  obtain ⟨⟨rw0, hrw0, hkey0⟩, hall⟩ :=
    upsertAllP_rowHas (desiredOf now st) st (desiredOf_keys_nodup now st) k t hkt
  rw [pass1F_eq]
  constructor
  · exact ⟨doneIf _ rw0, List.mem_map_of_mem _ hrw0,
      by rw [doneIf_key]; exact hkey0⟩
  · intro r' hr' hk'
    obtain ⟨rU, hrU, rfl⟩ := List.mem_map.mp hr'
    have hkeyU : rU.uniqueKey = some k := by
      rw [← doneIf_key (targetIds failSet ((desiredOf now st).map Prod.fst)
        (existingByKey (list_auto_tasks true st))) rU]
      exact hk'
    have hprot := pass1F_protected failSet now st hWF rU hrU ⟨k, hkeyU, hkd⟩
    have heq : doneIf (targetIds failSet ((desiredOf now st).map Prod.fst)
        (existingByKey (list_auto_tasks true st))) rU = rU := by
      unfold doneIf
      rw [if_neg hprot]
    rw [heq]
    exact hall rU hrU hkeyU

theorem pass1F_notOpen (now : Int) (st : Store) (hWF : storeWF st = true) :
    ∀ r ∈ (pass1F (fun _ => false) now st).tasks, kindIsAuto r.kind = true →
      ∀ k, r.uniqueKey = some k → keyTruthy (some k) = true →
      keyMem k ((desiredOf now st).map Prod.fst) = false →
      r.status ≠ "OPEN" := by
  have hWF' : keysOk st.tasks = true ∧ idsOk st.nextId st.tasks = true := by
    unfold storeWF at hWF
    rw [Bool.and_eq_true] at hWF
    exact hWF
  rw [pass1F_eq]
  intro r hr hkind k hk htr hkm hopen
  obtain ⟨rU, hrU, rfl⟩ := List.mem_map.mp hr
  by_cases hT : rU.id ∈ targetIds (fun _ => false)
      ((desiredOf now st).map Prod.fst) (existingByKey (list_auto_tasks true st))
  · have hdone : (doneIf (targetIds (fun _ => false)
        ((desiredOf now st).map Prod.fst)
        (existingByKey (list_auto_tasks true st))) rU).status = "DONE" := by
      unfold doneIf
      rw [if_pos hT]
    rw [hopen] at hdone
    exact absurd hdone (by decide)
  · have heq : doneIf (targetIds (fun _ => false)
        ((desiredOf now st).map Prod.fst)
        (existingByKey (list_auto_tasks true st))) rU = rU := by
      unfold doneIf
      rw [if_neg hT]
    rw [heq] at hk hkind hopen
    rcases upsertAllP_src _ st rU hrU with ⟨k', hk', hkey'⟩ | hmem
    · have : k' = k := Option.some.inj (hkey'.symm.trans hk)
      subst this
      rw [(keyMem_iff k' _).mpr hk'] at hkm
      exact absurd hkm (by decide)
    · have hEx : rU ∈ list_auto_tasks true st := by
        unfold list_auto_tasks
        rw [List.mem_filter]
        exact ⟨hmem, by simp [hkind]⟩
      have hE : (k, rU) ∈ existingByKey (list_auto_tasks true st) :=
        existingByKey_complete _ (keysOk_filter _ _ hWF'.1) rU hEx k hk htr
      exact hT (targetIds_complete (fun _ => false) _ _ k rU hE htr hkm hopen rfl)

theorem pass1F_WF (failSet : Nat → Bool) (now : Int) (st : Store)
    (hWF : storeWF st = true) : storeWF (pass1F failSet now st) = true := by
  rw [pass1F_eq]
  have hU := upsertAllP_WF (desiredOf now st) st hWF
  unfold storeWF at hU ⊢
  rw [Bool.and_eq_true] at hU ⊢
  exact ⟨keysOk_of_map_keyinv _ _ (fun r => doneIf_key _ r) hU.1,
    idsOk_of_map_idinv _ _ _ (fun r => doneIf_id _ r) hU.2⟩

/-! ## C2: reconcile is idempotent -/

theorem pass1F_fixpoint (now : Int) (st : Store) (hWF : storeWF st = true) :
    pass1F (fun _ => false) now (pass1F (fun _ => false) now st) =
      pass1F (fun _ => false) now st := by
  have hD : desiredOf now (pass1F (fun _ => false) now st) = desiredOf now st :=
    desiredOf_pass1F (fun _ => false) now st
  have hrowHas : ∀ (k : KeyT) (t : DesiredTask),
      (k, t) ∈ desiredOf now (pass1F (fun _ => false) now st) →
      rowHasDesired k t (pass1F (fun _ => false) now st) := by
    rw [hD]
    exact fun k t h => pass1F_rowHas (fun _ => false) now st hWF k t h
  have hUid : upsertAllP (desiredOf now (pass1F (fun _ => false) now st))
      (pass1F (fun _ => false) now st) = pass1F (fun _ => false) now st :=
    upsertAllP_id _ _ hrowHas
  show resolveObsolete (fun _ => false)
      ((desiredOf now (pass1F (fun _ => false) now st)).map Prod.fst)
      (existingByKey (list_auto_tasks true (pass1F (fun _ => false) now st)))
      (upsertAllP (desiredOf now (pass1F (fun _ => false) now st))
        (pass1F (fun _ => false) now st)) = _
  rw [hUid, resolveObsolete_eq]
  have hT2 : targetIds (fun _ => false)
      ((desiredOf now (pass1F (fun _ => false) now st)).map Prod.fst)
      (existingByKey (list_auto_tasks true (pass1F (fun _ => false) now st))) =
      [] := by
    rw [List.eq_nil_iff_forall_not_mem]
    intro i hi
    obtain ⟨k, row, hE, _, htr, hkm, hopen, _⟩ := targetIds_src _ _ _ _ hi
    obtain ⟨hrow, hkey, _⟩ := existingByKey_src _ _ _ hE
    have hmem : row ∈ (pass1F (fun _ => false) now st).tasks :=
      List.mem_of_mem_filter hrow
    have hkind : kindIsAuto row.kind = true := by
      have h2 := (List.mem_filter.mp hrow).2
      simp only [Bool.true_or, Bool.true_and] at h2
      exact h2
    rw [hD] at hkm
    exact pass1F_notOpen now st hWF row hmem hkind k hkey htr hkm hopen
  rw [hT2, map_mem_id _ _ (fun a _ => doneIf_nil a)]

/-- Claim C2: with no change to the stored entities between the calls,
running `reconcile` a second time returns exactly the same result (in
particular the same OPEN auto-task count) and leaves the store untouched;
well-formedness — in particular at most one task row per `unique_key` — is
preserved; and an upsert whose key already has a row updates it in place
(the task-table length does not grow). -/
theorem reconcile_idempotent (now : Int) (st : Store)
    (hWF : storeWF st = true) :
    reconcile now ((reconcile now st).2) = reconcile now st ∧
    storeWF (reconcile now st).2 = true ∧
    (∀ (k : KeyT) (kind : Kind) (et : Option String) (ei : Option Int)
      (ti : String) (due : Option Int) (s note : String) (st' : Store),
      (st'.tasks.any fun r => decide (r.uniqueKey = some k)) = true →
      (upsert_task_unique k kind et ei ti due s note st').tasks.length =
        st'.tasks.length) := by
  refine ⟨?_, ?_, ?_⟩
  · show reconcile_auto_tasks (fun _ => false) (fun _ => false) now
      ((reconcile now st).2) = reconcile now st
    have h1 : reconcile now st =
        (.ok (list_auto_tasks false (pass1F (fun _ => false) now st)).length,
          pass1F (fun _ => false) now st) :=
      reconcileF_eq (fun _ => false) now st
    rw [h1]
    show reconcile_auto_tasks (fun _ => false) (fun _ => false) now
      (pass1F (fun _ => false) now st) = _
    rw [reconcileF_eq (fun _ => false) now (pass1F (fun _ => false) now st),
      pass1F_fixpoint now st hWF]
  · have h1 : reconcile now st =
        (.ok (list_auto_tasks false (pass1F (fun _ => false) now st)).length,
          pass1F (fun _ => false) now st) :=
      reconcileF_eq (fun _ => false) now st
    rw [h1]
    exact pass1F_WF (fun _ => false) now st hWF
  · intro k kind et ei ti due s note st' hany
    unfold upsert_task_unique
    rw [if_pos hany]
    exact List.length_map _ _

/-- Witness for C2: both calls agree on the concrete store (one incomplete
property, one stale auto task), and the store stays well-formed. -/
theorem reconcile_idempotent_witness :
    reconcile 0 ((reconcile 0 c2Store).2) = reconcile 0 c2Store ∧
    storeWF (reconcile 0 c2Store).2 = true := by
  have h := reconcile_idempotent 0 c2Store (by decide)
  exact ⟨h.1, h.2.1⟩

/-! ## C3: failure isolation in the reconciler -/

/-- The upsert loop has no try/except: a failure on the first desired
upsert propagates out of `reconcile_auto_tasks` and the remaining desired
tasks (here `AUTO_PROP_INFO:2`, still desired) are never upserted —
falsifying the claim that a failing upsert does not abort the pass. -/
theorem reconcile_upsert_failure_aborts_cex :
    (reconcile_auto_tasks
        (fun k => decide (k = KeyT.autoKey (AutoKey.propInfo 1)))
        (fun _ => false) 0 c3Store).1 = .error () ∧
    ((reconcile_auto_tasks
        (fun k => decide (k = KeyT.autoKey (AutoKey.propInfo 1)))
        (fun _ => false) 0 c3Store).2.tasks.any
      (fun r => decide (r.uniqueKey =
        some (KeyT.autoKey (AutoKey.propInfo 2))))) = false ∧
    keyMem (KeyT.autoKey (AutoKey.propInfo 2))
      ((desiredOf 0 c3Store).map Prod.fst) = true := by
  refine ⟨by rfl, by decide, by decide⟩

/-- Claim C3 as amended: a failure in a single status-transition is caught
(`reconcile` still returns a count, and every other obsolete OPEN auto
task is still transitioned to DONE); a failure in an upsert, by contrast,
propagates and aborts the pass (see the counterexample). -/
theorem reconcile_resolve_failure_isolated (failSet : Nat → Bool) (now : Int)
    (st : Store) (hWF : storeWF st = true) :
    (∃ n, (reconcile_auto_tasks (fun _ => false) failSet now st).1 = .ok n) ∧
    ∀ r ∈ st.tasks, kindIsAuto r.kind = true →
      ∀ k, r.uniqueKey = some k → keyTruthy (some k) = true →
      keyMem k ((desiredOf now st).map Prod.fst) = false →
      r.status = "OPEN" → failSet r.id = false →
      ∃ r' ∈ (reconcile_auto_tasks (fun _ => false) failSet now st).2.tasks,
        r'.id = r.id ∧ r'.status = "DONE" := by
  rw [reconcileF_eq]
  constructor
  · exact ⟨_, rfl⟩
  · intro r hr hkind k hk htr hkm hopen hfs
    have hWF' : keysOk st.tasks = true ∧ idsOk st.nextId st.tasks = true := by
      unfold storeWF at hWF
      rw [Bool.and_eq_true] at hWF
      exact hWF
    have hrU : r ∈ (upsertAllP (desiredOf now st) st).tasks := by
      refine upsertAllP_keep _ st r hr ?_
      intro k' hk' hc
      have : k' = k := Option.some.inj (hc.symm.trans hk)
      subst this
      rw [(keyMem_iff k' _).mpr hk'] at hkm
      exact absurd hkm (by decide)
    have hEx : r ∈ list_auto_tasks true st := by
      unfold list_auto_tasks
      rw [List.mem_filter]
      exact ⟨hr, by simp [hkind]⟩
    have hE : (k, r) ∈ existingByKey (list_auto_tasks true st) :=
      existingByKey_complete _ (keysOk_filter _ _ hWF'.1) r hEx k hk htr
    have hT : r.id ∈ targetIds failSet ((desiredOf now st).map Prod.fst)
        (existingByKey (list_auto_tasks true st)) :=
      targetIds_complete failSet _ _ k r hE htr hkm hopen hfs
    refine ⟨doneIf (targetIds failSet ((desiredOf now st).map Prod.fst)
      (existingByKey (list_auto_tasks true st))) r, ?_, doneIf_id _ r, ?_⟩
    · show _ ∈ (pass1F failSet now st).tasks
      rw [pass1F_eq]
      exact List.mem_map_of_mem _ hrU
    · unfold doneIf
      rw [if_pos hT]

/-- Witness for C3 (amended): with the transition for task id 2 failing,
reconcile still returns a count and task id 1 is still resolved. -/
theorem reconcile_resolve_failure_isolated_witness :
    (∃ n, (reconcile_auto_tasks (fun _ => false) (fun i => decide (i = 2))
      0 c3StoreB).1 = .ok n) ∧
    ∃ r' ∈ (reconcile_auto_tasks (fun _ => false) (fun i => decide (i = 2))
        0 c3StoreB).2.tasks,
      r'.id = 1 ∧ r'.status = "DONE" := by
  have h := reconcile_resolve_failure_isolated (fun i => decide (i = 2)) 0
    c3StoreB (by decide)
  refine ⟨h.1, h.2 c3RowA (by decide) rfl (KeyT.autoKey (AutoKey.propPhoto 7))
    rfl rfl (by decide) rfl (by decide)⟩
